import Mathlib

set_option maxHeartbeats 1000000

/-!
Shallow embedding of GammaRay's `MetaObjectRegistry`
(src/core/metaobjectregistry.cpp) and `ClassesIconsRepositoryClient`
(src/client/classesiconsrepositoryclient.cpp).

`QMetaObject*` and `QObject*` values are modelled as natural numbers (their
addresses); a nullable `QMetaObject*` is `Option Nat` with `none` for
`nullptr`.  The `QHash`es of the registry are modelled as association lists
where the insertion order matters for the proofs (`m_childParentMap`,
`m_metaObjectMap`) and as finite-support functions otherwise; both give the
exact `QHash` lookup/insert/take semantics used by the code.
-/

/-- One entry of `m_metaObjectInfoMap` (struct `MetaObjectInfo`).  The counters
are C++ `int`s, modelled as `Int`; `QHash::operator[]` default-constructs an
absent entry, modelled by the default field values. -/
structure MetaObjectInfo where
  className : String := ""
  isStatic : Bool := false
  isDynamic : Bool := false
  selfCount : Int := 0
  selfAliveCount : Int := 0
  inclusiveCount : Int := 0
  inclusiveAliveCount : Int := 0
  invalid : Bool := false
deriving Repr, DecidableEq

/-- Signals emitted by the registry, recorded in emission order. -/
inductive REvent where
  | beforeMetaObjectAdded (mo : Nat)
  | afterMetaObjectAdded (mo : Nat)
  | dataChanged (mo : Nat)
deriving Repr, DecidableEq

/-- `QHash` lookup on an association list (first match wins; fresh entries are
prepended, so the head is the newest binding). -/
def alLookup {β : Type} : List (Nat × β) → Nat → Option β
  | [], _ => none
  | (k, v) :: l, k2 => if k2 = k then some v else alLookup l k2

/-- `QHash::contains`. -/
def alContains {β : Type} (l : List (Nat × β)) (k : Nat) : Bool :=
  (alLookup l k).isSome

/-- `QHash::insert`: overwrites any existing binding for the key. -/
def alInsert {β : Type} (l : List (Nat × β)) (k : Nat) (v : β) : List (Nat × β) :=
  (k, v) :: l.filter (fun kv => kv.1 != k)

/-- Removal part of `QHash::take`. -/
def alErase {β : Type} (l : List (Nat × β)) (k : Nat) : List (Nat × β) :=
  l.filter (fun kv => kv.1 != k)

/-- Pointwise update of a function-modelled `QHash` (binding `k` to `v`). -/
def fupd {β : Type} (f : Nat → Option β) (k : Nat) (v : β) : Nat → Option β :=
  fun n => if n = k then some v else f n

/-- Pointwise removal from a function-modelled `QHash`. -/
def fdel {β : Type} (f : Nat → Option β) (k : Nat) : Nat → Option β :=
  fun n => if n = k then none else f n

/-- Update of the `QByteArray`-keyed `m_metaObjectNameMap`. -/
def supd (f : String → Option Nat) (k : String) (v : Nat) : String → Option Nat :=
  fun n => if n = k then some v else f n

/-- Update of `m_parentChildMap` (keyed by a nullable parent pointer). -/
def pcupd (f : Option Nat → List Nat) (k : Option Nat) (v : List Nat) :
    Option Nat → List Nat :=
  fun n => if n = k then v else f n

/-- The mutable state of one `MetaObjectRegistry`. -/
structure RegState where
  /-- `m_metaObjectMap : QHash<QObject*, const QMetaObject*>` -/
  metaObjectMap : List (Nat × Nat)
  /-- `m_metaObjectInfoMap : QHash<const QMetaObject*, MetaObjectInfo>` -/
  metaObjectInfoMap : Nat → Option MetaObjectInfo
  /-- `m_childParentMap : QHash<const QMetaObject*, const QMetaObject*>`;
  kept in reverse insertion order (newest binding first). -/
  childParentMap : List (Nat × Option Nat)
  /-- `m_parentChildMap : QHash<const QMetaObject*, QVector<const QMetaObject*>>`;
  `value()`/`operator[]` of an absent key give an empty vector, so plain
  list-valued functions model it exactly. -/
  parentChildMap : Option Nat → List Nat
  /-- `m_metaObjectNameMap : QHash<QByteArray, const QMetaObject*>` -/
  metaObjectNameMap : String → Option Nat
  /-- `m_aliveInstances : QHash<const QMetaObject*, QVector<const QMetaObject*>>`;
  presence of the key is observable (`find` vs `end`), hence `Option`. -/
  aliveInstances : Nat → Option (List Nat)
  /-- `m_dynamicMetaObjectMap : QHash<QObject*, const QMetaObject*>` -/
  dynamicMetaObjectMap : Nat → Option Nat
  /-- `m_canonicalMetaObjectMap : QHash<const QMetaObject*, const QMetaObject*>` -/
  canonicalMetaObjectMap : Nat → Option Nat
  /-- ghost log of emitted signals -/
  emitted : List REvent

/-- The freshly constructed registry (before any scan). -/
def initState : RegState :=
  { metaObjectMap := []
    metaObjectInfoMap := fun _ => none
    childParentMap := []
    parentChildMap := fun _ => []
    metaObjectNameMap := fun _ => none
    aliveInstances := fun _ => none
    dynamicMetaObjectMap := fun _ => none
    canonicalMetaObjectMap := fun _ => none
    emitted := [] }

/-- The host reflection system, abstracted exactly as the registry consumes it:
class name, super class and read-only-storage classification per descriptor,
plus `obj->metaObject()` and `hasDynamicMetaObject(obj)` per object.
`parent_lt` states that descriptor numbering follows the superclass order
(parents have smaller addresses), which makes the superclass chains finite. -/
structure MOEnv where
  className : Nat → String
  superClass : Nat → Option Nat
  /-- `Execution::isReadOnlyData(metaObject)` -/
  readOnly : Nat → Bool
  /-- `obj->metaObject()` -/
  objMeta : Nat → Nat
  /-- `hasDynamicMetaObject(obj)` -/
  objDynamic : Nat → Bool
  parent_lt : ∀ m p, superClass m = some p → p < m

/-- `MetaObjectRegistry::isKnownMetaObject`. -/
def isKnownMetaObject (st : RegState) (metaObject : Nat) : Bool :=
  alContains st.childParentMap metaObject

/-- `m_metaObjectInfoMap[n]` as read (the default-constructed entry if absent). -/
def getInfo (st : RegState) (n : Nat) : MetaObjectInfo :=
  (st.metaObjectInfoMap n).getD {}

/-- Lines 232-245 of `MetaObjectRegistry::addMetaObject`: fill in the node's
info entry, record its parent, emit `beforeMetaObjectAdded`, append it to its
parent's children vector and emit `afterMetaObjectAdded`. -/
def registerNode (env : MOEnv) (st : RegState) (metaObject : Nat)
    (parentMetaObject : Option Nat) (isStaticMO mergeDynamic : Bool) : RegState :=
  let info := (st.metaObjectInfoMap metaObject).getD {}
  let info := { info with className := env.className metaObject,
                          isStatic := isStaticMO,
                          isDynamic := !isStaticMO && mergeDynamic }
  let st := { st with metaObjectInfoMap := fupd st.metaObjectInfoMap metaObject info }
  let st := { st with childParentMap := alInsert st.childParentMap metaObject parentMetaObject }
  let children := st.parentChildMap parentMetaObject
  let st := { st with emitted := st.emitted ++ [REvent.beforeMetaObjectAdded metaObject] }
  let st := { st with parentChildMap := pcupd st.parentChildMap parentMetaObject (children ++ [metaObject]) }
  { st with emitted := st.emitted ++ [REvent.afterMetaObjectAdded metaObject] }

/-- `MetaObjectRegistry::addMetaObject` with an explicit recursion bound; the
recursion descends along `superClass`, so by `MOEnv.parent_lt` a fuel of
`metaObject + 1` (see `addMetaObject`) always suffices and the `0` case is
never reached from the wrapper. -/
def addMetaObjectFuel (env : MOEnv) :
    Nat → RegState → Nat → Bool → RegState × Nat
  | 0, st, metaObject, _ => (st, metaObject)
  | fuel + 1, st, metaObject, mergeDynamic =>
    if isKnownMetaObject st metaObject then (st, metaObject)
    else
      let pr : RegState × Option Nat :=
        match env.superClass metaObject with
        | none => (st, none)
        | some p =>
          if isKnownMetaObject st p then (st, some p)
          else
            -- add parent first
            let r := addMetaObjectFuel env fuel st p mergeDynamic
            (r.1, some r.2)
      let st1 := pr.1
      let parentMetaObject := pr.2
      let isStaticMO := env.readOnly metaObject
      if !isStaticMO && mergeDynamic then
        match st1.metaObjectNameMap (env.className metaObject) with
        | some canonical => (st1, canonical)
        | none =>
          let nm := supd st1.metaObjectNameMap (env.className metaObject) metaObject
          let st2 := { st1 with metaObjectNameMap := nm }
          (registerNode env st2 metaObject parentMetaObject isStaticMO mergeDynamic, metaObject)
      else
        (registerNode env st1 metaObject parentMetaObject isStaticMO mergeDynamic, metaObject)

/-- `MetaObjectRegistry::addMetaObject`. -/
def addMetaObject (env : MOEnv) (st : RegState) (metaObject : Nat)
    (mergeDynamic : Bool) : RegState × Nat :=
  addMetaObjectFuel env (metaObject + 1) st metaObject mergeDynamic

/-- The sequence of nodes visited by the `while (current)` ancestor walks of
`objectAdded`/`objectRemoved`: the node itself, then repeatedly
`m_childParentMap.value(current)` (default `nullptr`) until null.  The walks
run with fuel `length + 1` (see `ancestorChain`), which is shown adequate for
every reachable registry. -/
def ancestorChainFuel (cp : List (Nat × Option Nat)) : Nat → Nat → List Nat
  | 0, _ => []
  | fuel + 1, current =>
    current ::
      (match (alLookup cp current).getD none with
       | some parent => ancestorChainFuel cp fuel parent
       | none => [])

/-- The ancestor walk of a registry whose child/parent map is `cp`. -/
def ancestorChain (cp : List (Nat × Option Nat)) (start : Nat) : List Nat :=
  ancestorChainFuel cp (cp.length + 1) start

/-- `std::lower_bound` + `insert`: insert `x` in front of the first element
that is not less than `x` (for the address-sorted alive pools). -/
def lowerBoundInsert : List Nat → Nat → List Nat
  | [], x => [x]
  | y :: ys, x => if x ≤ y then x :: y :: ys else y :: lowerBoundInsert ys x

/-- `std::lower_bound` + compare + `erase` on an address-sorted pool: drop the
lower bound of `x` when it equals `x`. -/
def lowerBoundErase : List Nat → Nat → List Nat
  | [], _ => []
  | y :: ys, x => if x ≤ y then (if y = x then ys else y :: ys) else y :: lowerBoundErase ys x

/-- `MetaObjectRegistry::addAliveInstance`. -/
def addAliveInstance (env : MOEnv) (st : RegState) (obj : Nat) (canonicalMO : Nat) :
    RegState :=
  let aliveMO := env.objMeta obj
  let st := { st with dynamicMetaObjectMap := fupd st.dynamicMetaObjectMap obj aliveMO }
  let st := { st with canonicalMetaObjectMap := fupd st.canonicalMetaObjectMap aliveMO canonicalMO }
  let alivePool := (st.aliveInstances canonicalMO).getD []
  { st with aliveInstances := fupd st.aliveInstances canonicalMO (lowerBoundInsert alivePool aliveMO) }

/-- `MetaObjectRegistry::removeAliveInstance`.  When `take` misses (the object
was never in `m_dynamicMetaObjectMap`), the C++ proceeds with `aliveMO ==
nullptr`: the lower-bound search cannot match it in the (non-null) pool and
`QHash::remove(nullptr)` removes nothing, so only the `operator[]`
default-insertion of the pool is performed. -/
def removeAliveInstance (st : RegState) (obj : Nat) (canonicalMO : Nat) : RegState :=
  let aliveMO := st.dynamicMetaObjectMap obj
  let st := { st with dynamicMetaObjectMap := fdel st.dynamicMetaObjectMap obj }
  let alivePool := (st.aliveInstances canonicalMO).getD []
  match aliveMO with
  | some a =>
    let st := { st with aliveInstances := fupd st.aliveInstances canonicalMO (lowerBoundErase alivePool a) }
    { st with canonicalMetaObjectMap := fdel st.canonicalMetaObjectMap a }
  | none =>
    { st with aliveInstances := fupd st.aliveInstances canonicalMO alivePool }

/-- Per-node body of the `objectAdded` ancestor loop (lines 190-197). -/
def incStep (s : RegState) (current : Nat) : RegState :=
  let i := (s.metaObjectInfoMap current).getD {}
  let i := { i with inclusiveCount := i.inclusiveCount + 1,
                    inclusiveAliveCount := i.inclusiveAliveCount + 1,
                    invalid := false }
  { s with metaObjectInfoMap := fupd s.metaObjectInfoMap current i,
           emitted := s.emitted ++ [REvent.dataChanged current] }

/-- `MetaObjectRegistry::objectAdded` (the thread/liveness assertions of the
source are preconditions of the embedding, not modelled state). -/
def objectAdded (env : MOEnv) (st : RegState) (obj : Nat) : RegState :=
  let r := addMetaObject env st (env.objMeta obj) (env.objDynamic obj)
  let st := r.1
  let metaObject := r.2
  let st := { st with metaObjectMap := alInsert st.metaObjectMap obj metaObject }
  let info := (st.metaObjectInfoMap metaObject).getD {}
  let info := { info with selfCount := info.selfCount + 1,
                          selfAliveCount := info.selfAliveCount + 1 }
  let st := { st with metaObjectInfoMap := fupd st.metaObjectInfoMap metaObject info }
  let st := if info.isDynamic then addAliveInstance env st obj metaObject else st
  (ancestorChain st.childParentMap metaObject).foldl incStep st

/-- Per-node body of the `objectRemoved` ancestor loop (lines 271-283):
decrement, emit `dataChanged`, then mark non-static nodes with no alive
instances left as invalid. -/
def decStep (s : RegState) (current : Nat) : RegState :=
  let i := (s.metaObjectInfoMap current).getD {}
  let i := { i with inclusiveAliveCount := i.inclusiveAliveCount - 1 }
  let s := { s with metaObjectInfoMap := fupd s.metaObjectInfoMap current i,
                    emitted := s.emitted ++ [REvent.dataChanged current] }
  if i.inclusiveAliveCount == 0 && !i.isStatic then
    { s with metaObjectInfoMap := fupd s.metaObjectInfoMap current { i with invalid := true } }
  else s

/-- `MetaObjectRegistry::objectRemoved`. -/
def objectRemoved (st : RegState) (obj : Nat) : RegState :=
  match alLookup st.metaObjectMap obj with
  | none => st
  | some metaObject =>
    let st := { st with metaObjectMap := alErase st.metaObjectMap obj }
    let info := (st.metaObjectInfoMap metaObject).getD {}
    -- `m_metaObjectInfoMap[metaObject]` default-inserts the entry it reads
    let st := { st with metaObjectInfoMap := fupd st.metaObjectInfoMap metaObject info }
    if info.selfAliveCount == (0 : Int) then
      -- something went wrong, but let's just ignore this event
      st
    else
      let info := { info with selfAliveCount := info.selfAliveCount - 1 }
      let st := { st with metaObjectInfoMap := fupd st.metaObjectInfoMap metaObject info }
      let st := if info.isDynamic then removeAliveInstance st obj metaObject else st
      (ancestorChain st.childParentMap metaObject).foldl decStep st

/-- `MetaObjectRegistry::isValid`. -/
def isValid (st : RegState) (metaObject : Nat) : Bool :=
  match st.metaObjectInfoMap metaObject with
  | none => false
  | some info => !info.invalid

/-- `MetaObjectRegistry::isStatic`. -/
def isStatic (st : RegState) (metaObject : Nat) : Bool :=
  match st.metaObjectInfoMap metaObject with
  | none => false
  | some info => info.isStatic

/-- `MetaObjectRegistry::parentOf`. -/
def parentOf (st : RegState) (metaObject : Nat) : Option Nat :=
  (alLookup st.childParentMap metaObject).getD none

/-- `MetaObjectRegistry::aliveInstance`: `none` models a `nullptr` result. -/
def aliveInstance (st : RegState) (metaObject : Nat) : Option Nat :=
  match st.aliveInstances metaObject with
  | none => some metaObject -- static QMO
  | some pool => pool.head?

/-- `MetaObjectRegistry::canonicalMetaObject`. -/
def canonicalMetaObject (st : RegState) (metaObject : Nat) : Option Nat :=
  match st.canonicalMetaObjectMap metaObject with
  | some c => some c
  | none => some metaObject

/-- The registry's inbound interface: object lifecycle events from the probe
and direct descriptor registrations (`scanMetaTypes` performs the latter). -/
inductive Event where
  | add (obj : Nat)
  | remove (obj : Nat)
  | addMeta (mo : Nat) (mergeDynamic : Bool)
deriving Repr, DecidableEq

/-- One inbound event. -/
def runEvent (env : MOEnv) (st : RegState) : Event → RegState
  | .add obj => objectAdded env st obj
  | .remove obj => objectRemoved st obj
  | .addMeta mo b => (addMetaObject env st mo b).1

/-- A sequence of inbound events. -/
def runEvents (env : MOEnv) (st : RegState) : List Event → RegState
  | [] => st
  | e :: es => runEvents env (runEvent env st e) es

/-- The instrumentation contract on event sequences: an object is added only
while not alive and removed only while alive (`alive` accumulates the
currently alive objects). -/
def validFrom (alive : List Nat) : List Event → Bool
  | [] => true
  | .add obj :: es => !alive.contains obj && validFrom (obj :: alive) es
  | .remove obj :: es => alive.contains obj && validFrom (alive.erase obj) es
  | .addMeta _ _ :: es => validFrom alive es

/-! ## The icons repository client -/

/-- State of one `ClassesIconsRepositoryClient`, together with the cache
inherited from its base class and a ghost counter of sent fetch requests. -/
structure IconsClientState where
  /-- Modelled from the spec: the base class `ClassesIconsRepository` (not
  among the sources) keeps a cached, id-indexed list of paths. -/
  iconsIndex : List String
  /-- `m_ready` -/
  ready : Bool
  /-- ghost: number of `Endpoint::invokeObject(..., "requestIndex")` calls -/
  requestsSent : Nat
deriving Repr, DecidableEq

/-- Modelled from the spec: `ClassesIconsRepository::filePath` returns the
cached path for `id`, or an empty string on a cache miss. -/
def baseFilePath (s : IconsClientState) (id : Nat) : String :=
  (s.iconsIndex.get? id).getD ""

/-- `ClassesIconsRepositoryClient::requestIndex`: set the latch and send the
asynchronous fetch request. -/
def requestIndex (s : IconsClientState) : IconsClientState :=
  { s with ready := true, requestsSent := s.requestsSent + 1 }

/-- `ClassesIconsRepositoryClient::filePath`: returns the cached value and the
successor state (a fetch is triggered on a miss while the latch is unset). -/
def clientFilePath (s : IconsClientState) (id : Nat) : String × IconsClientState :=
  let fp := baseFilePath s id
  if fp.isEmpty && !s.ready then (fp, requestIndex s) else (fp, s)

/-- `ClassesIconsRepositoryClient::indexReceived`; `setIndex` is modelled from
the spec: the response replaces the whole cached index. -/
def indexReceived (s : IconsClientState) (index : List String) : IconsClientState :=
  { s with iconsIndex := index }

/-- A burst of `filePath` queries (no response in between). -/
def runFilePaths (s : IconsClientState) : List Nat → IconsClientState
  | [] => s
  | id :: ids => runFilePaths (clientFilePath s id).2 ids

/-- A fresh client: empty cache, latch unset, no request sent yet. -/
def initClient : IconsClientState :=
  { iconsIndex := [], ready := false, requestsSent := 0 }

/-! ## Association list lemmas -/

theorem alLookup_eq_none {β : Type} (l : List (Nat × β)) (k : Nat) :
    alLookup l k = none ↔ k ∉ l.map Prod.fst := by
  induction l with
  | nil => simp [alLookup]
  | cons kv rest ih =>
    obtain ⟨k1, v1⟩ := kv
    by_cases h : k = k1 <;> simp [alLookup, h, ih]

theorem alContains_iff_mem {β : Type} (l : List (Nat × β)) (k : Nat) :
    alContains l k = true ↔ k ∈ l.map Prod.fst := by
  unfold alContains
  rcases h : alLookup l k with _ | v
  · simpa [h] using (alLookup_eq_none l k).mp h
  · simp only [Option.isSome_some, true_iff]
    by_contra hmem
    rw [(alLookup_eq_none l k).mpr hmem] at h
    exact Option.noConfusion h

theorem alContains_false {β : Type} (l : List (Nat × β)) (k : Nat) :
    alContains l k = false ↔ k ∉ l.map Prod.fst := by
  rw [← Bool.not_eq_true, not_iff_not]
  exact alContains_iff_mem l k

theorem alInsert_fresh {β : Type} (l : List (Nat × β)) (k : Nat) (v : β)
    (h : alContains l k = false) : alInsert l k v = (k, v) :: l := by
  unfold alInsert
  have hmem := (alContains_false l k).mp h
  have : l.filter (fun kv => kv.1 != k) = l := by
    apply List.filter_eq_self.mpr
    intro kv hkv
    simp only [bne_iff_ne, ne_eq, decide_eq_true_eq]
    intro heq
    exact hmem (heq ▸ List.mem_map_of_mem Prod.fst hkv)
  rw [this]

theorem alLookup_erase_self {β : Type} (l : List (Nat × β)) (k : Nat) :
    alLookup (alErase l k) k = none := by
  rw [alLookup_eq_none]
  intro hmem
  rcases List.mem_map.mp hmem with ⟨kv, hkv, hfst⟩
  have := List.of_mem_filter hkv
  simp only [bne_iff_ne, ne_eq, decide_eq_true_eq] at this
  exact this hfst

theorem alLookup_erase_ne {β : Type} (l : List (Nat × β)) (k k2 : Nat) (h : k2 ≠ k) :
    alLookup (alErase l k) k2 = alLookup l k2 := by
  induction l with
  | nil => rfl
  | cons kv rest ih =>
    obtain ⟨k1, v1⟩ := kv
    by_cases h1 : k1 = k
    · subst h1
      simp only [alErase, List.filter_cons, bne_self_eq_false, Bool.false_eq_true, if_neg]
      rw [show alLookup ((k1, v1) :: rest) k2 = alLookup rest k2 by simp [alLookup, h]]
      exact ih
    · have ih2 : alLookup (List.filter (fun kv => kv.1 != k) rest) k2 = alLookup rest k2 := ih
      simp only [alErase, List.filter_cons]
      rw [if_pos (by simpa using h1)]
      by_cases h2 : k2 = k1 <;> simp [alLookup, h2, ih2]

theorem alErase_keys_sublist {β : Type} (l : List (Nat × β)) (k : Nat) :
    ((alErase l k).map Prod.fst).Sublist (l.map Prod.fst) :=
  List.Sublist.map Prod.fst (List.filter_sublist l)

theorem alErase_nodup {β : Type} (l : List (Nat × β)) (k : Nat)
    (h : (l.map Prod.fst).Nodup) : ((alErase l k).map Prod.fst).Nodup :=
  (alErase_keys_sublist l k).nodup h

theorem alInsert_nodup {β : Type} (l : List (Nat × β)) (k : Nat) (v : β)
    (h : (l.map Prod.fst).Nodup) : ((alInsert l k v).map Prod.fst).Nodup := by
  unfold alInsert
  refine List.nodup_cons.mpr ⟨?_, alErase_nodup l k h⟩
  intro hmem
  rcases List.mem_map.mp hmem with ⟨kv, hkv, hfst⟩
  have := List.of_mem_filter hkv
  simp only [bne_iff_ne, ne_eq, decide_eq_true_eq] at this
  exact this hfst

theorem alPerm_of_lookup {β : Type} (l : List (Nat × β)) (k : Nat) (v : β)
    (hnd : (l.map Prod.fst).Nodup) (h : alLookup l k = some v) :
    l.Perm ((k, v) :: alErase l k) := by
  induction l with
  | nil => simp [alLookup] at h
  | cons kv rest ih =>
    obtain ⟨k1, v1⟩ := kv
    by_cases h1 : k = k1
    · subst h1
      simp only [alLookup, if_true, eq_self_iff_true, Option.some.injEq] at h
      subst h
      have hk : k ∉ rest.map Prod.fst := (List.nodup_cons.mp hnd).1
      have : alErase ((k, v1) :: rest) k = rest := by
        simp only [alErase, List.filter_cons, bne_self_eq_false, Bool.false_eq_true, if_neg]
        apply List.filter_eq_self.mpr
        intro kv hkv
        simp only [bne_iff_ne, ne_eq, decide_eq_true_eq]
        intro heq
        exact hk (heq ▸ List.mem_map_of_mem Prod.fst hkv)
      rw [this]
    · have hlk : alLookup rest k = some v := by
        simpa [alLookup, h1] using h
      have hperm := ih (List.nodup_cons.mp hnd).2 hlk
      have herase : alErase ((k1, v1) :: rest) k = (k1, v1) :: alErase rest k := by
        simp only [alErase, List.filter_cons]
        rw [if_pos (by simp [Ne.symm h1])]
      rw [herase]
      exact (List.Perm.cons (k1, v1) hperm).trans
        (List.Perm.swap (k, v) (k1, v1) (alErase rest k))

/-! ## Parent-first order of `m_childParentMap` and the ancestor walk -/

/-- Every binding's parent (when non-null) was inserted strictly earlier: it
occurs among the keys of the (older) tail. -/
def ParentsEarlier : List (Nat × Option Nat) → Prop
  | [] => True
  | (_, po) :: rest => (∀ p, po = some p → p ∈ rest.map Prod.fst) ∧ ParentsEarlier rest

/-- Length of the suffix starting at the key's binding (0 when absent): an
insertion-age measure that strictly decreases along parent links. -/
def alDepth : List (Nat × Option Nat) → Nat → Nat
  | [], _ => 0
  | (k, _) :: rest, c => if c = k then rest.length + 1 else alDepth rest c

theorem alDepth_le_length (l : List (Nat × Option Nat)) (c : Nat) :
    alDepth l c ≤ l.length := by
  induction l with
  | nil => simp [alDepth]
  | cons kv rest ih =>
    obtain ⟨k, po⟩ := kv
    by_cases h : c = k <;> simp [alDepth, h] <;> omega

theorem pe_lookup_mem {l : List (Nat × Option Nat)} (hpe : ParentsEarlier l)
    {c p : Nat} (h : alLookup l c = some (some p)) : p ∈ l.map Prod.fst := by
  induction l with
  | nil => simp [alLookup] at h
  | cons kv rest ih =>
    obtain ⟨k, po⟩ := kv
    by_cases h1 : c = k
    · subst h1
      simp only [alLookup, if_true, eq_self_iff_true, Option.some.injEq] at h
      subst h
      exact List.mem_cons_of_mem c (hpe.1 p rfl)
    · have := ih hpe.2 (by simpa [alLookup, h1] using h)
      exact List.mem_cons_of_mem k this

theorem pe_depth_lt {l : List (Nat × Option Nat)} (hpe : ParentsEarlier l)
    (hnd : (l.map Prod.fst).Nodup) {c p : Nat}
    (h : alLookup l c = some (some p)) : alDepth l p < alDepth l c := by
  induction l with
  | nil => simp [alLookup] at h
  | cons kv rest ih =>
    obtain ⟨k, po⟩ := kv
    have hk : k ∉ rest.map Prod.fst := (List.nodup_cons.mp hnd).1
    by_cases h1 : c = k
    · subst h1
      simp only [alLookup, if_true, eq_self_iff_true, Option.some.injEq] at h
      subst h
      have hp : p ∈ rest.map Prod.fst := hpe.1 p rfl
      have hne : p ≠ c := fun heq => hk (heq ▸ hp)
      have := alDepth_le_length rest p
      simp only [alDepth, eq_self_iff_true, if_true, if_neg hne]
      omega
    · have hlk : alLookup rest c = some (some p) := by simpa [alLookup, h1] using h
      have hp : p ∈ rest.map Prod.fst := pe_lookup_mem hpe.2 hlk
      have hpk : p ≠ k := fun heq => hk (heq ▸ hp)
      have := ih hpe.2 (List.nodup_cons.mp hnd).2 hlk
      simpa [alDepth, h1, hpk] using this

theorem chainFuel_congr {l : List (Nat × Option Nat)} (hpe : ParentsEarlier l)
    (hnd : (l.map Prod.fst).Nodup) :
    ∀ f g c, alDepth l c < f → alDepth l c < g →
      ancestorChainFuel l f c = ancestorChainFuel l g c := by
  intro f
  induction f with
  | zero => intro g c hf; omega
  | succ f ih =>
    intro g c hf hg
    obtain ⟨g, rfl⟩ : ∃ g2, g = g2 + 1 := ⟨g - 1, by omega⟩
    simp only [ancestorChainFuel]
    rcases hlk : (alLookup l c).getD none with _ | p
    · rfl
    · have hsome : alLookup l c = some (some p) := by
        rcases h2 : alLookup l c with _ | po
        · simp [h2] at hlk
        · simp only [h2, Option.getD_some] at hlk; rw [hlk]
      have hdp : alDepth l p < alDepth l c := pe_depth_lt hpe hnd hsome
      show c :: ancestorChainFuel l f p = c :: ancestorChainFuel l g p
      rw [ih g p (by omega) (by omega)]

theorem chainFuel_some {l : List (Nat × Option Nat)} {c p : Nat}
    (hlk : (alLookup l c).getD none = some p) (f : Nat) :
    ancestorChainFuel l (f + 1) c = c :: ancestorChainFuel l f p := by
  show c :: (match (alLookup l c).getD none with
       | some parent => ancestorChainFuel l f parent
       | none => []) = c :: ancestorChainFuel l f p
  rw [hlk]

theorem chainFuel_eq_chain {l : List (Nat × Option Nat)} (hpe : ParentsEarlier l)
    (hnd : (l.map Prod.fst).Nodup) (f c : Nat) (hf : alDepth l c < f) :
    ancestorChainFuel l f c = ancestorChain l c := by
  have := alDepth_le_length l c
  exact chainFuel_congr hpe hnd f (l.length + 1) c hf (by omega)

theorem ancestorChain_cons {l : List (Nat × Option Nat)} (hpe : ParentsEarlier l)
    (hnd : (l.map Prod.fst).Nodup) (c : Nat) :
    ancestorChain l c = c ::
      (match (alLookup l c).getD none with
       | some p => ancestorChain l p
       | none => []) := by
  rcases hlk : (alLookup l c).getD none with _ | p
  · show ancestorChain l c = [c]
    unfold ancestorChain
    simp only [ancestorChainFuel]
    rw [hlk]
  · have hsome : alLookup l c = some (some p) := by
      rcases h2 : alLookup l c with _ | po
      · simp [h2] at hlk
      · simp only [h2, Option.getD_some] at hlk; rw [hlk]
    have hdp : alDepth l p < alDepth l c := pe_depth_lt hpe hnd hsome
    have := alDepth_le_length l c
    show ancestorChain l c = c :: ancestorChain l p
    unfold ancestorChain
    rw [chainFuel_some hlk l.length,
      chainFuel_congr hpe hnd l.length (l.length + 1) p (by omega) (by omega)]

theorem chainFuel_mem_keys {l : List (Nat × Option Nat)} (hpe : ParentsEarlier l) :
    ∀ f c, c ∈ l.map Prod.fst → ∀ x ∈ ancestorChainFuel l f c, x ∈ l.map Prod.fst := by
  intro f
  induction f with
  | zero => intro c hc x hx; simp [ancestorChainFuel] at hx
  | succ f ih =>
    intro c hc x hx
    simp only [ancestorChainFuel] at hx
    rcases List.mem_cons.mp hx with rfl | hx2
    · exact hc
    · rcases hlk : (alLookup l c).getD none with _ | p
      · rw [hlk] at hx2; simp at hx2
      · rw [hlk] at hx2
        have hsome : alLookup l c = some (some p) := by
          rcases h2 : alLookup l c with _ | po
          · simp [h2] at hlk
          · simp only [h2, Option.getD_some] at hlk; rw [hlk]
        exact ih p (pe_lookup_mem hpe hsome) x hx2

theorem chainFuel_depth_le {l : List (Nat × Option Nat)} (hpe : ParentsEarlier l)
    (hnd : (l.map Prod.fst).Nodup) :
    ∀ f c, ∀ x ∈ ancestorChainFuel l f c, alDepth l x ≤ alDepth l c := by
  intro f
  induction f with
  | zero => intro c x hx; simp [ancestorChainFuel] at hx
  | succ f ih =>
    intro c x hx
    simp only [ancestorChainFuel] at hx
    rcases List.mem_cons.mp hx with rfl | hx2
    · exact le_refl _
    · rcases hlk : (alLookup l c).getD none with _ | p
      · rw [hlk] at hx2; simp at hx2
      · rw [hlk] at hx2
        have hsome : alLookup l c = some (some p) := by
          rcases h2 : alLookup l c with _ | po
          · simp [h2] at hlk
          · simp only [h2, Option.getD_some] at hlk; rw [hlk]
        exact le_trans (ih p x hx2) (le_of_lt (pe_depth_lt hpe hnd hsome))

theorem chainFuel_nodup {l : List (Nat × Option Nat)} (hpe : ParentsEarlier l)
    (hnd : (l.map Prod.fst).Nodup) :
    ∀ f c, (ancestorChainFuel l f c).Nodup := by
  intro f
  induction f with
  | zero => intro c; simp [ancestorChainFuel]
  | succ f ih =>
    intro c
    simp only [ancestorChainFuel]
    rcases hlk : (alLookup l c).getD none with _ | p
    · simp
    · have hsome : alLookup l c = some (some p) := by
        rcases h2 : alLookup l c with _ | po
        · simp [h2] at hlk
        · simp only [h2, Option.getD_some] at hlk; rw [hlk]
      refine List.nodup_cons.mpr ⟨?_, ih p⟩
      intro hmem
      have hle := chainFuel_depth_le hpe hnd f p c hmem
      have hlt := pe_depth_lt hpe hnd hsome
      omega

theorem ancestorChain_nodup {l : List (Nat × Option Nat)} (hpe : ParentsEarlier l)
    (hnd : (l.map Prod.fst).Nodup) (c : Nat) : (ancestorChain l c).Nodup :=
  chainFuel_nodup hpe hnd _ c

theorem chainFuel_ext {cp cp2 : List (Nat × Option Nat)} (hpe : ParentsEarlier cp)
    (hext : ∀ k, k ∈ cp.map Prod.fst → alLookup cp2 k = alLookup cp k) :
    ∀ f c, c ∈ cp.map Prod.fst →
      ancestorChainFuel cp2 f c = ancestorChainFuel cp f c := by
  intro f
  induction f with
  | zero => intro c hc; rfl
  | succ f ih =>
    intro c hc
    simp only [ancestorChainFuel, hext c hc]
    rcases hlk : (alLookup cp c).getD none with _ | p
    · rfl
    · have hsome : alLookup cp c = some (some p) := by
        rcases h2 : alLookup cp c with _ | po
        · simp [h2] at hlk
        · simp only [h2, Option.getD_some] at hlk; rw [hlk]
      show c :: ancestorChainFuel cp2 f p = c :: ancestorChainFuel cp f p
      rw [ih p (pe_lookup_mem hpe hsome)]

theorem ancestorChain_ext {cp cp2 : List (Nat × Option Nat)} (hpe : ParentsEarlier cp)
    (hnd : (cp.map Prod.fst).Nodup)
    (hext : ∀ k, k ∈ cp.map Prod.fst → alLookup cp2 k = alLookup cp k)
    (hlen : cp.length ≤ cp2.length)
    (c : Nat) (hc : c ∈ cp.map Prod.fst) :
    ancestorChain cp2 c = ancestorChain cp c := by
  unfold ancestorChain
  rw [chainFuel_ext hpe hext (cp2.length + 1) c hc]
  have := alDepth_le_length cp c
  exact chainFuel_congr hpe hnd (cp2.length + 1) (cp.length + 1) c
    (by omega) (by omega)

/-! ## The graph invariant of reachable registries -/

theorem mem_keys_of_lookup {β : Type} {l : List (Nat × β)} {k : Nat} {v : β}
    (h : alLookup l k = some v) : k ∈ l.map Prod.fst :=
  (alContains_iff_mem l k).mp (by simp [alContains, h])

theorem lookup_isSome_of_mem {β : Type} {l : List (Nat × β)} {k : Nat}
    (h : k ∈ l.map Prod.fst) : (alLookup l k).isSome = true :=
  (alContains_iff_mem l k).mpr h

theorem fupd_self {β : Type} (f : Nat → Option β) (k : Nat) (v : β) :
    fupd f k v k = some v := by simp [fupd]

theorem fupd_ne {β : Type} (f : Nat → Option β) (k : Nat) (v : β) (n : Nat)
    (h : n ≠ k) : fupd f k v n = f n := by simp [fupd, h]

/-- Is this emission a `dataChanged` notification? -/
def isDataChangedEv : REvent → Bool
  | .dataChanged _ => true
  | _ => false

/-- Structural invariant of every reachable registry state (no constraint on
the event order is needed for it). -/
structure GraphInv (st : RegState) : Prop where
  pe : ParentsEarlier st.childParentMap
  nodupCP : (st.childParentMap.map Prod.fst).Nodup
  nameKnown : ∀ s m, st.metaObjectNameMap s = some m →
    m ∈ st.childParentMap.map Prod.fst
  infoDom : ∀ n, (st.metaObjectInfoMap n).isSome = true →
    n ∈ st.childParentMap.map Prod.fst
  momKnown : ∀ o m, alLookup st.metaObjectMap o = some m →
    m ∈ st.childParentMap.map Prod.fst
  momNodup : (st.metaObjectMap.map Prod.fst).Nodup
  aliveDyn : ∀ n l, st.aliveInstances n = some l → (getInfo st n).isDynamic = true
  aliveSorted : ∀ n l, st.aliveInstances n = some l → List.Sorted (· ≤ ·) l
  flagsExcl : ∀ n, (getInfo st n).isDynamic = true → (getInfo st n).isStatic = false
  staticValid : ∀ n, (getInfo st n).isStatic = true → (getInfo st n).invalid = false

theorem graphInv_init : GraphInv initState := by
  constructor <;> simp [initState, ParentsEarlier, getInfo, alLookup]

/-- What one `addMetaObject` call does to the state, relative to the pre-state:
the invariant is maintained, the result node is registered, existing
child/parent bindings, instance bookkeeping, all counters, validity flags and
`dataChanged` emissions are untouched, and every newly registered node has an
address at most `mo`. -/
structure AddMetaOk (st st2 : RegState) (mo res : Nat) : Prop where
  ginv : GraphInv st2
  resKnown : res ∈ st2.childParentMap.map Prod.fst
  cpExt : ∀ k, k ∈ st.childParentMap.map Prod.fst →
    alLookup st2.childParentMap k = alLookup st.childParentMap k
  cpLen : st.childParentMap.length ≤ st2.childParentMap.length
  cpNew : ∀ k, k ∈ st2.childParentMap.map Prod.fst →
    k ∈ st.childParentMap.map Prod.fst ∨ k ≤ mo
  momEq : st2.metaObjectMap = st.metaObjectMap
  selfCountEq : ∀ n, (getInfo st2 n).selfCount = (getInfo st n).selfCount
  selfAliveEq : ∀ n, (getInfo st2 n).selfAliveCount = (getInfo st n).selfAliveCount
  inclCountEq : ∀ n, (getInfo st2 n).inclusiveCount = (getInfo st n).inclusiveCount
  inclAliveEq : ∀ n, (getInfo st2 n).inclusiveAliveCount = (getInfo st n).inclusiveAliveCount
  invalidEq : ∀ n, (getInfo st2 n).invalid = (getInfo st n).invalid
  aliveEq : st2.aliveInstances = st.aliveInstances
  dynEq : st2.dynamicMetaObjectMap = st.dynamicMetaObjectMap
  canonEq : st2.canonicalMetaObjectMap = st.canonicalMetaObjectMap
  dcEq : st2.emitted.filter isDataChangedEv = st.emitted.filter isDataChangedEv

theorem addMetaOk_id {st : RegState} {mo res : Nat} (h : GraphInv st)
    (hres : res ∈ st.childParentMap.map Prod.fst) : AddMetaOk st st mo res :=
  ⟨h, hres, fun _ _ => rfl, le_refl _, fun k hk => Or.inl hk, rfl,
   fun _ => rfl, fun _ => rfl, fun _ => rfl, fun _ => rfl, fun _ => rfl,
   rfl, rfl, rfl, rfl⟩

theorem addMetaOk_trans {st st1 st2 : RegState} {mo1 mo2 r1 r2 : Nat}
    (h1 : AddMetaOk st st1 mo1 r1) (h2 : AddMetaOk st1 st2 mo2 r2)
    (hle : mo1 ≤ mo2) : AddMetaOk st st2 mo2 r2 where
  ginv := h2.ginv
  resKnown := h2.resKnown
  cpExt := by
    intro k hk
    have hk1 : k ∈ st1.childParentMap.map Prod.fst := by
      rw [← alContains_iff_mem]
      unfold alContains
      rw [h1.cpExt k hk]
      exact lookup_isSome_of_mem hk
    rw [h2.cpExt k hk1, h1.cpExt k hk]
  cpLen := le_trans h1.cpLen h2.cpLen
  cpNew := by
    intro k hk
    rcases h2.cpNew k hk with hk1 | hle2
    · rcases h1.cpNew k hk1 with hk0 | hle1
      · exact Or.inl hk0
      · exact Or.inr (le_trans hle1 hle)
    · exact Or.inr hle2
  momEq := h2.momEq.trans h1.momEq
  selfCountEq := fun n => (h2.selfCountEq n).trans (h1.selfCountEq n)
  selfAliveEq := fun n => (h2.selfAliveEq n).trans (h1.selfAliveEq n)
  inclCountEq := fun n => (h2.inclCountEq n).trans (h1.inclCountEq n)
  inclAliveEq := fun n => (h2.inclAliveEq n).trans (h1.inclAliveEq n)
  invalidEq := fun n => (h2.invalidEq n).trans (h1.invalidEq n)
  aliveEq := h2.aliveEq.trans h1.aliveEq
  dynEq := h2.dynEq.trans h1.dynEq
  canonEq := h2.canonEq.trans h1.canonEq
  dcEq := h2.dcEq.trans h1.dcEq

/-! ## Effect of one `addMetaObject` call -/

theorem registerNode_cp (env : MOEnv) (st : RegState) (mo : Nat) (pmo : Option Nat)
    (isS bm : Bool) : (registerNode env st mo pmo isS bm).childParentMap =
      alInsert st.childParentMap mo pmo := rfl

/-- The info entry written by `addMetaObject` lines 233-235 (on top of the
`operator[]`-read entry `old`). -/
def registeredInfo (env : MOEnv) (old : MetaObjectInfo) (mo : Nat) (isS bm : Bool) :
    MetaObjectInfo :=
  { old with className := env.className mo, isStatic := isS, isDynamic := !isS && bm }

theorem registerNode_infoMap (env : MOEnv) (st : RegState) (mo : Nat) (pmo : Option Nat)
    (isS bm : Bool) : (registerNode env st mo pmo isS bm).metaObjectInfoMap =
      fupd st.metaObjectInfoMap mo
        (registeredInfo env ((st.metaObjectInfoMap mo).getD {}) mo isS bm) := rfl

theorem registerNode_mom (env : MOEnv) (st : RegState) (mo : Nat) (pmo : Option Nat)
    (isS bm : Bool) : (registerNode env st mo pmo isS bm).metaObjectMap =
      st.metaObjectMap := rfl

theorem registerNode_name (env : MOEnv) (st : RegState) (mo : Nat) (pmo : Option Nat)
    (isS bm : Bool) : (registerNode env st mo pmo isS bm).metaObjectNameMap =
      st.metaObjectNameMap := rfl

theorem registerNode_alive (env : MOEnv) (st : RegState) (mo : Nat) (pmo : Option Nat)
    (isS bm : Bool) : (registerNode env st mo pmo isS bm).aliveInstances =
      st.aliveInstances := rfl

theorem registerNode_dyn (env : MOEnv) (st : RegState) (mo : Nat) (pmo : Option Nat)
    (isS bm : Bool) : (registerNode env st mo pmo isS bm).dynamicMetaObjectMap =
      st.dynamicMetaObjectMap := rfl

theorem registerNode_canon (env : MOEnv) (st : RegState) (mo : Nat) (pmo : Option Nat)
    (isS bm : Bool) : (registerNode env st mo pmo isS bm).canonicalMetaObjectMap =
      st.canonicalMetaObjectMap := rfl

theorem registerNode_emitted (env : MOEnv) (st : RegState) (mo : Nat) (pmo : Option Nat)
    (isS bm : Bool) : (registerNode env st mo pmo isS bm).emitted =
      st.emitted ++ [REvent.beforeMetaObjectAdded mo] ++ [REvent.afterMetaObjectAdded mo] := rfl

theorem registeredInfo_eta (env : MOEnv) (mo : Nat) (isS bm : Bool) :
    registeredInfo env {} mo isS bm =
      { className := env.className mo, isStatic := isS, isDynamic := !isS && bm,
        selfCount := 0, selfAliveCount := 0, inclusiveCount := 0,
        inclusiveAliveCount := 0, invalid := false } := rfl

theorem registerNode_ok (env : MOEnv) (st0 st1 : RegState)
    (mo : Nat) (pmo : Option Nat) (isS bm : Bool)
    (hinv : GraphInv st0)
    (hcp0 : st1.childParentMap = st0.childParentMap)
    (hinfo0 : st1.metaObjectInfoMap = st0.metaObjectInfoMap)
    (hmom0 : st1.metaObjectMap = st0.metaObjectMap)
    (halive0 : st1.aliveInstances = st0.aliveInstances)
    (hdyn0 : st1.dynamicMetaObjectMap = st0.dynamicMetaObjectMap)
    (hcanon0 : st1.canonicalMetaObjectMap = st0.canonicalMetaObjectMap)
    (hemit0 : st1.emitted = st0.emitted)
    (hname : ∀ s m, st1.metaObjectNameMap s = some m →
      m ∈ st0.childParentMap.map Prod.fst ∨ m = mo)
    (hfresh : mo ∉ st0.childParentMap.map Prod.fst)
    (hpmo : ∀ q, pmo = some q → q ∈ st0.childParentMap.map Prod.fst) :
    AddMetaOk st0 (registerNode env st1 mo pmo isS bm) mo mo := by
  have hnone : st0.metaObjectInfoMap mo = none := by
    rcases h : st0.metaObjectInfoMap mo with _ | i
    · rfl
    · exact absurd (hinv.infoDom mo (by simp [h])) hfresh
  have hcp : (registerNode env st1 mo pmo isS bm).childParentMap =
      (mo, pmo) :: st0.childParentMap := by
    rw [registerNode_cp, hcp0]
    exact alInsert_fresh _ _ _ ((alContains_false _ _).mpr hfresh)
  have hkeys : (registerNode env st1 mo pmo isS bm).childParentMap.map Prod.fst =
      mo :: st0.childParentMap.map Prod.fst := by rw [hcp]; rfl
  have hinfo2 : ∀ n, n ≠ mo →
      (registerNode env st1 mo pmo isS bm).metaObjectInfoMap n =
        st0.metaObjectInfoMap n := by
    intro n hn
    rw [registerNode_infoMap, fupd_ne _ _ _ _ hn, hinfo0]
  have hinfoMo : (registerNode env st1 mo pmo isS bm).metaObjectInfoMap mo =
      some (registeredInfo env {} mo isS bm) := by
    rw [registerNode_infoMap, fupd_self, hinfo0, hnone]
    rfl
  have hgetNe : ∀ n, n ≠ mo →
      getInfo (registerNode env st1 mo pmo isS bm) n = getInfo st0 n := by
    intro n hn
    unfold getInfo
    rw [hinfo2 n hn]
  have hgetMo : getInfo (registerNode env st1 mo pmo isS bm) mo =
      registeredInfo env {} mo isS bm := by
    unfold getInfo
    rw [hinfoMo]
    rfl
  have hgetMo0 : getInfo st0 mo = {} := by unfold getInfo; rw [hnone]; rfl
  constructor
  case resKnown => rw [hkeys]; exact List.mem_cons_self _ _
  case cpExt =>
    intro k hk
    rw [hcp]
    have hne : k ≠ mo := fun heq => hfresh (heq ▸ hk)
    simp [alLookup, hne]
  case cpLen => rw [hcp]; simp
  case cpNew =>
    intro k hk
    rw [hkeys] at hk
    rcases List.mem_cons.mp hk with rfl | hk2
    · exact Or.inr (le_refl _)
    · exact Or.inl hk2
  case momEq => rw [registerNode_mom, hmom0]
  case selfCountEq =>
    intro n
    by_cases hn : n = mo
    · subst hn; rw [hgetMo, hgetMo0, registeredInfo_eta]
    · rw [hgetNe n hn]
  case selfAliveEq =>
    intro n
    by_cases hn : n = mo
    · subst hn; rw [hgetMo, hgetMo0, registeredInfo_eta]
    · rw [hgetNe n hn]
  case inclCountEq =>
    intro n
    by_cases hn : n = mo
    · subst hn; rw [hgetMo, hgetMo0, registeredInfo_eta]
    · rw [hgetNe n hn]
  case inclAliveEq =>
    intro n
    by_cases hn : n = mo
    · subst hn; rw [hgetMo, hgetMo0, registeredInfo_eta]
    · rw [hgetNe n hn]
  case invalidEq =>
    intro n
    by_cases hn : n = mo
    · subst hn; rw [hgetMo, hgetMo0, registeredInfo_eta]
    · rw [hgetNe n hn]
  case aliveEq => rw [registerNode_alive, halive0]
  case dynEq => rw [registerNode_dyn, hdyn0]
  case canonEq => rw [registerNode_canon, hcanon0]
  case dcEq =>
    rw [registerNode_emitted, hemit0]
    simp [List.filter_append, isDataChangedEv]
  case ginv =>
    constructor
    case pe =>
      rw [hcp]
      exact ⟨fun q hq => hpmo q hq, hinv.pe⟩
    case nodupCP =>
      rw [hkeys]
      exact List.nodup_cons.mpr ⟨hfresh, hinv.nodupCP⟩
    case nameKnown =>
      intro s m hs
      rw [registerNode_name] at hs
      rw [hkeys]
      rcases hname s m hs with hmem | rfl
      · exact List.mem_cons_of_mem _ hmem
      · exact List.mem_cons_self _ _
    case infoDom =>
      intro n hn
      rw [hkeys]
      by_cases heq : n = mo
      · subst heq; exact List.mem_cons_self _ _
      · rw [hinfo2 n heq] at hn
        exact List.mem_cons_of_mem _ (hinv.infoDom n hn)
    case momKnown =>
      intro o m hm
      rw [registerNode_mom, hmom0] at hm
      rw [hkeys]
      exact List.mem_cons_of_mem _ (hinv.momKnown o m hm)
    case momNodup => rw [registerNode_mom, hmom0]; exact hinv.momNodup
    case aliveDyn =>
      intro n l hl
      rw [registerNode_alive, halive0] at hl
      by_cases heq : n = mo
      · subst heq
        have := hinv.aliveDyn n l hl
        rw [hgetMo0] at this
        exact absurd this (by simp)
      · rw [hgetNe n heq]
        exact hinv.aliveDyn n l hl
    case aliveSorted =>
      intro n l hl
      rw [registerNode_alive, halive0] at hl
      exact hinv.aliveSorted n l hl
    case flagsExcl =>
      intro n hdynFlag
      by_cases heq : n = mo
      · subst heq
        rw [hgetMo, registeredInfo_eta] at hdynFlag ⊢
        simp only at hdynFlag ⊢
        rcases isS with _ | _
        · rfl
        · simp at hdynFlag
      · rw [hgetNe n heq] at hdynFlag ⊢
        exact hinv.flagsExcl n hdynFlag
    case staticValid =>
      intro n hstat
      by_cases heq : n = mo
      · subst heq
        rw [hgetMo, registeredInfo_eta]
      · rw [hgetNe n heq] at hstat ⊢
        exact hinv.staticValid n hstat

theorem addMetaObjectFuel_congr (env : MOEnv) :
    ∀ fuel st mo b, mo < fuel →
      addMetaObjectFuel env fuel st mo b = addMetaObject env st mo b := by
  intro fuel
  induction fuel using Nat.strong_induction_on with
  | _ fuel ih =>
    intro st mo b hlt
    obtain ⟨f, rfl⟩ : ∃ f, fuel = f + 1 := ⟨fuel - 1, by omega⟩
    unfold addMetaObject
    by_cases hk : isKnownMetaObject st mo
    · simp [addMetaObjectFuel, hk]
    · rcases hsc : env.superClass mo with _ | p
      · simp [addMetaObjectFuel, hk, hsc]
      · by_cases hkp : isKnownMetaObject st p
        · simp [addMetaObjectFuel, hk, hkp, hsc]
        · have hp : p < mo := env.parent_lt mo p hsc
          have h1 : addMetaObjectFuel env f st p b = addMetaObject env st p b :=
            ih f (by omega) st p b (by omega)
          have h2 : addMetaObjectFuel env mo st p b = addMetaObject env st p b :=
            ih mo (by omega) st p b hp
          simp only [addMetaObjectFuel, hk, hkp, hsc, h1, h2, Bool.false_eq_true,
            if_false]

theorem addMeta_spec (env : MOEnv) :
    ∀ mo st b, GraphInv st →
      AddMetaOk st (addMetaObject env st mo b).1 mo (addMetaObject env st mo b).2 := by
  intro mo
  induction mo using Nat.strong_induction_on with
  | _ mo ih =>
    intro st b hinv
    by_cases hk : isKnownMetaObject st mo
    · have heq : addMetaObject env st mo b = (st, mo) := by
        simp [addMetaObject, addMetaObjectFuel, hk]
      rw [heq]
      exact addMetaOk_id hinv ((alContains_iff_mem _ _).mp hk)
    · have hfreshMem : mo ∉ st.childParentMap.map Prod.fst := by
        rw [← alContains_false st.childParentMap mo]
        simpa [isKnownMetaObject] using hk
      rcases hsc : env.superClass mo with _ | p
      · -- no superclass: parent is null and the pre-state is unchanged
        unfold addMetaObject
        simp only [addMetaObjectFuel, hk, Bool.false_eq_true, if_false, hsc]
        by_cases hm : (!env.readOnly mo && b) = true
        · simp only [hm, if_true]
          rcases hnm : st.metaObjectNameMap (env.className mo) with _ | canonical
          · simp only [hnm]
            exact registerNode_ok env st _ mo none _ b hinv rfl rfl rfl rfl rfl rfl rfl
              (by
                intro s m hs
                by_cases hseq : s = env.className mo
                · subst hseq
                  simp only [supd, if_true, eq_self_iff_true, Option.some.injEq] at hs
                  exact Or.inr hs.symm
                · simp only [supd, if_neg hseq] at hs
                  exact Or.inl (hinv.nameKnown s m hs))
              hfreshMem (by intro q hq; exact absurd hq (by simp))
          · simp only [hnm]
            exact addMetaOk_id hinv (hinv.nameKnown _ _ hnm)
        · simp only [hm, Bool.false_eq_true, if_false]
          exact registerNode_ok env st st mo none _ b hinv rfl rfl rfl rfl rfl rfl rfl
            (fun s m hs => Or.inl (hinv.nameKnown s m hs)) hfreshMem
            (by intro q hq; exact absurd hq (by simp))
      · by_cases hkp : isKnownMetaObject st p
        · -- parent already known: pre-state unchanged, parent pointer `some p`
          have hpmem : p ∈ st.childParentMap.map Prod.fst :=
            (alContains_iff_mem _ _).mp hkp
          unfold addMetaObject
          simp only [addMetaObjectFuel, hk, Bool.false_eq_true, if_false, hsc, hkp, if_true]
          by_cases hm : (!env.readOnly mo && b) = true
          · simp only [hm, if_true]
            rcases hnm : st.metaObjectNameMap (env.className mo) with _ | canonical
            · simp only [hnm]
              exact registerNode_ok env st _ mo (some p) _ b hinv rfl rfl rfl rfl rfl rfl rfl
                (by
                  intro s m hs
                  by_cases hseq : s = env.className mo
                  · subst hseq
                    simp only [supd, if_true, eq_self_iff_true, Option.some.injEq] at hs
                    exact Or.inr hs.symm
                  · simp only [supd, if_neg hseq] at hs
                    exact Or.inl (hinv.nameKnown s m hs))
                hfreshMem
                (by intro q hq; injection hq with hq; exact hq ▸ hpmem)
            · simp only [hnm]
              exact addMetaOk_id hinv (hinv.nameKnown _ _ hnm)
          · simp only [hm, Bool.false_eq_true, if_false]
            exact registerNode_ok env st st mo (some p) _ b hinv rfl rfl rfl rfl rfl rfl rfl
              (fun s m hs => Or.inl (hinv.nameKnown s m hs)) hfreshMem
              (by intro q hq; injection hq with hq; exact hq ▸ hpmem)
        · -- recursive parent registration
          have hp : p < mo := env.parent_lt mo p hsc
          have hrec := ih p hp st b hinv
          have hcongr : addMetaObjectFuel env mo st p b = addMetaObject env st p b :=
            addMetaObjectFuel_congr env mo st p b hp
          have hfresh2 : mo ∉ (addMetaObject env st p b).1.childParentMap.map Prod.fst := by
            intro hmem
            rcases hrec.cpNew mo hmem with h0 | hle
            · exact hfreshMem h0
            · omega
          unfold addMetaObject
          simp only [addMetaObjectFuel, hk, Bool.false_eq_true, if_false, hsc, hkp, hcongr]
          by_cases hm : (!env.readOnly mo && b) = true
          · simp only [hm, if_true]
            rcases hnm : (addMetaObject env st p b).1.metaObjectNameMap (env.className mo)
              with _ | canonical
            · simp only [hnm]
              refine addMetaOk_trans hrec ?_ (le_of_lt hp)
              exact registerNode_ok env (addMetaObject env st p b).1 _ mo
                (some (addMetaObject env st p b).2) _ b hrec.ginv rfl rfl rfl rfl rfl rfl rfl
                (by
                  intro s m hs
                  by_cases hseq : s = env.className mo
                  · subst hseq
                    simp only [supd, if_true, eq_self_iff_true, Option.some.injEq] at hs
                    exact Or.inr hs.symm
                  · simp only [supd, if_neg hseq] at hs
                    exact Or.inl (hrec.ginv.nameKnown s m hs))
                hfresh2
                (by intro q hq; injection hq with hq; exact hq ▸ hrec.resKnown)
            · simp only [hnm]
              exact addMetaOk_trans hrec
                (addMetaOk_id hrec.ginv (hrec.ginv.nameKnown _ _ hnm)) (le_of_lt hp)
          · simp only [hm, Bool.false_eq_true, if_false]
            refine addMetaOk_trans hrec ?_ (le_of_lt hp)
            exact registerNode_ok env (addMetaObject env st p b).1 (addMetaObject env st p b).1 mo
              (some (addMetaObject env st p b).2) _ b hrec.ginv rfl rfl rfl rfl rfl rfl rfl
              (fun s m hs => Or.inl (hrec.ginv.nameKnown s m hs)) hfresh2
              (by intro q hq; injection hq with hq; exact hq ▸ hrec.resKnown)

/-! ## Effect of the ancestor walks -/

/-- Per-node info change of the `objectAdded` walk. -/
def bumpInc (i : MetaObjectInfo) : MetaObjectInfo :=
  { i with inclusiveCount := i.inclusiveCount + 1,
           inclusiveAliveCount := i.inclusiveAliveCount + 1,
           invalid := false }

/-- Per-node info change of the `objectRemoved` walk. -/
def decInfo (i : MetaObjectInfo) : MetaObjectInfo :=
  let i2 := { i with inclusiveAliveCount := i.inclusiveAliveCount - 1 }
  if i2.inclusiveAliveCount == (0 : Int) && !i2.isStatic then { i2 with invalid := true }
  else i2

theorem incStep_getInfo (s : RegState) (c n : Nat) :
    getInfo (incStep s c) n = if n = c then bumpInc (getInfo s c) else getInfo s n := by
  unfold incStep getInfo bumpInc fupd
  by_cases h : n = c <;> simp [h]

theorem decStep_getInfo (s : RegState) (c n : Nat) :
    getInfo (decStep s c) n = if n = c then decInfo (getInfo s c) else getInfo s n := by
  unfold decStep getInfo decInfo
  by_cases h : n = c
  · subst h
    by_cases hc : ((((s.metaObjectInfoMap n).getD {}).inclusiveAliveCount - 1 == (0 : Int)) &&
        !((s.metaObjectInfoMap n).getD {}).isStatic) = true
    · simp only [hc, if_true, if_pos rfl, fupd_self, Option.getD_some]
    · simp only [hc, Bool.false_eq_true, if_false, if_pos rfl, fupd_self, Option.getD_some]
      rfl
  · by_cases hc : ((((s.metaObjectInfoMap c).getD {}).inclusiveAliveCount - 1 == (0 : Int)) &&
        !((s.metaObjectInfoMap c).getD {}).isStatic) = true
    · simp only [hc, if_true, if_neg h, fupd, if_neg h]
    · simp only [hc, Bool.false_eq_true, if_false, if_neg h, fupd, if_neg h]

theorem incStep_cp (s : RegState) (c : Nat) :
    (incStep s c).childParentMap = s.childParentMap := rfl

theorem incStep_mom (s : RegState) (c : Nat) :
    (incStep s c).metaObjectMap = s.metaObjectMap := rfl

theorem incStep_alive (s : RegState) (c : Nat) :
    (incStep s c).aliveInstances = s.aliveInstances := rfl

theorem incStep_dyn (s : RegState) (c : Nat) :
    (incStep s c).dynamicMetaObjectMap = s.dynamicMetaObjectMap := rfl

theorem incStep_canon (s : RegState) (c : Nat) :
    (incStep s c).canonicalMetaObjectMap = s.canonicalMetaObjectMap := rfl

theorem incStep_name (s : RegState) (c : Nat) :
    (incStep s c).metaObjectNameMap = s.metaObjectNameMap := rfl

theorem incStep_emitted (s : RegState) (c : Nat) :
    (incStep s c).emitted = s.emitted ++ [REvent.dataChanged c] := rfl

theorem decStep_cp (s : RegState) (c : Nat) :
    (decStep s c).childParentMap = s.childParentMap := by
  unfold decStep
  by_cases hc : ((((s.metaObjectInfoMap c).getD {}).inclusiveAliveCount - 1 == (0 : Int)) &&
      !((s.metaObjectInfoMap c).getD {}).isStatic) = true <;> simp [hc]

theorem decStep_mom (s : RegState) (c : Nat) :
    (decStep s c).metaObjectMap = s.metaObjectMap := by
  unfold decStep
  by_cases hc : ((((s.metaObjectInfoMap c).getD {}).inclusiveAliveCount - 1 == (0 : Int)) &&
      !((s.metaObjectInfoMap c).getD {}).isStatic) = true <;> simp [hc]

theorem decStep_alive (s : RegState) (c : Nat) :
    (decStep s c).aliveInstances = s.aliveInstances := by
  unfold decStep
  by_cases hc : ((((s.metaObjectInfoMap c).getD {}).inclusiveAliveCount - 1 == (0 : Int)) &&
      !((s.metaObjectInfoMap c).getD {}).isStatic) = true <;> simp [hc]

theorem decStep_dyn (s : RegState) (c : Nat) :
    (decStep s c).dynamicMetaObjectMap = s.dynamicMetaObjectMap := by
  unfold decStep
  by_cases hc : ((((s.metaObjectInfoMap c).getD {}).inclusiveAliveCount - 1 == (0 : Int)) &&
      !((s.metaObjectInfoMap c).getD {}).isStatic) = true <;> simp [hc]

theorem decStep_canon (s : RegState) (c : Nat) :
    (decStep s c).canonicalMetaObjectMap = s.canonicalMetaObjectMap := by
  unfold decStep
  by_cases hc : ((((s.metaObjectInfoMap c).getD {}).inclusiveAliveCount - 1 == (0 : Int)) &&
      !((s.metaObjectInfoMap c).getD {}).isStatic) = true <;> simp [hc]

theorem decStep_name (s : RegState) (c : Nat) :
    (decStep s c).metaObjectNameMap = s.metaObjectNameMap := by
  unfold decStep
  by_cases hc : ((((s.metaObjectInfoMap c).getD {}).inclusiveAliveCount - 1 == (0 : Int)) &&
      !((s.metaObjectInfoMap c).getD {}).isStatic) = true <;> simp [hc]

theorem decStep_emitted (s : RegState) (c : Nat) :
    (decStep s c).emitted = s.emitted ++ [REvent.dataChanged c] := by
  unfold decStep
  by_cases hc : ((((s.metaObjectInfoMap c).getD {}).inclusiveAliveCount - 1 == (0 : Int)) &&
      !((s.metaObjectInfoMap c).getD {}).isStatic) = true <;> simp [hc]

theorem foldInc_cp (l : List Nat) : ∀ s : RegState,
    (l.foldl incStep s).childParentMap = s.childParentMap := by
  induction l with
  | nil => intro s; rfl
  | cons a l ih => intro s; rw [List.foldl_cons, ih, incStep_cp]

theorem foldInc_mom (l : List Nat) : ∀ s : RegState,
    (l.foldl incStep s).metaObjectMap = s.metaObjectMap := by
  induction l with
  | nil => intro s; rfl
  | cons a l ih => intro s; rw [List.foldl_cons, ih, incStep_mom]

theorem foldInc_alive (l : List Nat) : ∀ s : RegState,
    (l.foldl incStep s).aliveInstances = s.aliveInstances := by
  induction l with
  | nil => intro s; rfl
  | cons a l ih => intro s; rw [List.foldl_cons, ih, incStep_alive]

theorem foldInc_dyn (l : List Nat) : ∀ s : RegState,
    (l.foldl incStep s).dynamicMetaObjectMap = s.dynamicMetaObjectMap := by
  induction l with
  | nil => intro s; rfl
  | cons a l ih => intro s; rw [List.foldl_cons, ih, incStep_dyn]

theorem foldInc_canon (l : List Nat) : ∀ s : RegState,
    (l.foldl incStep s).canonicalMetaObjectMap = s.canonicalMetaObjectMap := by
  induction l with
  | nil => intro s; rfl
  | cons a l ih => intro s; rw [List.foldl_cons, ih, incStep_canon]

theorem foldInc_name (l : List Nat) : ∀ s : RegState,
    (l.foldl incStep s).metaObjectNameMap = s.metaObjectNameMap := by
  induction l with
  | nil => intro s; rfl
  | cons a l ih => intro s; rw [List.foldl_cons, ih, incStep_name]

theorem foldInc_emitted (l : List Nat) : ∀ s : RegState,
    (l.foldl incStep s).emitted = s.emitted ++ l.map REvent.dataChanged := by
  induction l with
  | nil => intro s; simp
  | cons a l ih =>
    intro s
    rw [List.foldl_cons, ih, incStep_emitted]
    simp

theorem foldInc_getInfo (l : List Nat) (hnd : l.Nodup) : ∀ (s : RegState) (n : Nat),
    getInfo (l.foldl incStep s) n =
      if n ∈ l then bumpInc (getInfo s n) else getInfo s n := by
  induction l with
  | nil => intro s n; simp
  | cons a l ih =>
    intro s n
    rw [List.foldl_cons, ih (List.nodup_cons.mp hnd).2 (incStep s a) n]
    by_cases hmem : n ∈ l
    · have hna : n ≠ a := fun heq => (List.nodup_cons.mp hnd).1 (heq ▸ hmem)
      rw [if_pos hmem, if_pos (List.mem_cons_of_mem a hmem), incStep_getInfo, if_neg hna]
    · rw [if_neg hmem, incStep_getInfo]
      by_cases hna : n = a
      · subst hna
        rw [if_pos rfl, if_pos (List.mem_cons_self _ _)]
      · rw [if_neg hna, if_neg (by simp [hna, hmem])]

theorem foldDec_cp (l : List Nat) : ∀ s : RegState,
    (l.foldl decStep s).childParentMap = s.childParentMap := by
  induction l with
  | nil => intro s; rfl
  | cons a l ih => intro s; rw [List.foldl_cons, ih, decStep_cp]

theorem foldDec_mom (l : List Nat) : ∀ s : RegState,
    (l.foldl decStep s).metaObjectMap = s.metaObjectMap := by
  induction l with
  | nil => intro s; rfl
  | cons a l ih => intro s; rw [List.foldl_cons, ih, decStep_mom]

theorem foldDec_alive (l : List Nat) : ∀ s : RegState,
    (l.foldl decStep s).aliveInstances = s.aliveInstances := by
  induction l with
  | nil => intro s; rfl
  | cons a l ih => intro s; rw [List.foldl_cons, ih, decStep_alive]

theorem foldDec_dyn (l : List Nat) : ∀ s : RegState,
    (l.foldl decStep s).dynamicMetaObjectMap = s.dynamicMetaObjectMap := by
  induction l with
  | nil => intro s; rfl
  | cons a l ih => intro s; rw [List.foldl_cons, ih, decStep_dyn]

theorem foldDec_canon (l : List Nat) : ∀ s : RegState,
    (l.foldl decStep s).canonicalMetaObjectMap = s.canonicalMetaObjectMap := by
  induction l with
  | nil => intro s; rfl
  | cons a l ih => intro s; rw [List.foldl_cons, ih, decStep_canon]

theorem foldDec_name (l : List Nat) : ∀ s : RegState,
    (l.foldl decStep s).metaObjectNameMap = s.metaObjectNameMap := by
  induction l with
  | nil => intro s; rfl
  | cons a l ih => intro s; rw [List.foldl_cons, ih, decStep_name]

theorem foldDec_emitted (l : List Nat) : ∀ s : RegState,
    (l.foldl decStep s).emitted = s.emitted ++ l.map REvent.dataChanged := by
  induction l with
  | nil => intro s; simp
  | cons a l ih =>
    intro s
    rw [List.foldl_cons, ih, decStep_emitted]
    simp

theorem foldDec_getInfo (l : List Nat) (hnd : l.Nodup) : ∀ (s : RegState) (n : Nat),
    getInfo (l.foldl decStep s) n =
      if n ∈ l then decInfo (getInfo s n) else getInfo s n := by
  induction l with
  | nil => intro s n; simp
  | cons a l ih =>
    intro s n
    rw [List.foldl_cons, ih (List.nodup_cons.mp hnd).2 (decStep s a) n]
    by_cases hmem : n ∈ l
    · have hna : n ≠ a := fun heq => (List.nodup_cons.mp hnd).1 (heq ▸ hmem)
      rw [if_pos hmem, if_pos (List.mem_cons_of_mem a hmem), decStep_getInfo, if_neg hna]
    · rw [if_neg hmem, decStep_getInfo]
      by_cases hna : n = a
      · subst hna
        rw [if_pos rfl, if_pos (List.mem_cons_self _ _)]
      · rw [if_neg hna, if_neg (by simp [hna, hmem])]

/-! ## Sortedness of the alive pools -/

theorem lowerBoundInsert_sorted (x : Nat) : ∀ l : List Nat,
    List.Sorted (· ≤ ·) l → List.Sorted (· ≤ ·) (lowerBoundInsert l x) := by
  intro l
  induction l with
  | nil => intro h; simp [lowerBoundInsert]
  | cons y ys ih =>
    intro h
    unfold lowerBoundInsert
    by_cases hxy : x ≤ y
    · rw [if_pos hxy]
      refine List.sorted_cons.mpr ⟨?_, h⟩
      intro b hb
      rcases List.mem_cons.mp hb with rfl | hb2
      · exact hxy
      · exact le_trans hxy (List.rel_of_sorted_cons h b hb2)
    · rw [if_neg hxy]
      have hyx : y ≤ x := le_of_not_le hxy
      refine List.sorted_cons.mpr ⟨?_, ih (List.sorted_cons.mp h).2⟩
      intro b hb
      have : b ∈ ys ∨ b = x := by
        clear ih h
        induction ys with
        | nil => simpa [lowerBoundInsert] using hb
        | cons z zs ih2 =>
          unfold lowerBoundInsert at hb
          by_cases hxz : x ≤ z
          · rw [if_pos hxz] at hb
            rcases List.mem_cons.mp hb with rfl | hb3
            · exact Or.inr rfl
            · exact Or.inl hb3
          · rw [if_neg hxz] at hb
            rcases List.mem_cons.mp hb with rfl | hb3
            · exact Or.inl (List.mem_cons_self _ _)
            · rcases ih2 hb3 with hz | hz
              · exact Or.inl (List.mem_cons_of_mem _ hz)
              · exact Or.inr hz
      rcases this with hb2 | rfl
      · exact List.rel_of_sorted_cons h b hb2
      · exact hyx

theorem lowerBoundErase_sublist (x : Nat) : ∀ l : List Nat,
    (lowerBoundErase l x).Sublist l := by
  intro l
  induction l with
  | nil => simp [lowerBoundErase]
  | cons y ys ih =>
    unfold lowerBoundErase
    by_cases hxy : x ≤ y
    · rw [if_pos hxy]
      by_cases hyx : y = x
      · rw [if_pos hyx]
        exact List.sublist_cons_self _ _
      · rw [if_neg hyx]
    · rw [if_neg hxy]
      exact List.Sublist.cons₂ y ih

theorem lowerBoundErase_sorted (x : Nat) (l : List Nat)
    (h : List.Sorted (· ≤ ·) l) : List.Sorted (· ≤ ·) (lowerBoundErase l x) :=
  List.Pairwise.sublist (lowerBoundErase_sublist x l) h

/-! ## Decomposition of `objectAdded` / `objectRemoved` -/

/-- Self-counter bump of `objectAdded` (lines 183-184). -/
def bumpSelf (i : MetaObjectInfo) : MetaObjectInfo :=
  { i with selfCount := i.selfCount + 1, selfAliveCount := i.selfAliveCount + 1 }

/-- Self-alive decrement of `objectRemoved` (line 264). -/
def decSelf (i : MetaObjectInfo) : MetaObjectInfo :=
  { i with selfAliveCount := i.selfAliveCount - 1 }

/-- `objectAdded` after the descriptor was resolved to `(st1, c)`: record the
object, bump the self counters. -/
def objAddedMid (st1 : RegState) (obj c : Nat) : RegState :=
  let stA := { st1 with metaObjectMap := alInsert st1.metaObjectMap obj c }
  { stA with metaObjectInfoMap := fupd stA.metaObjectInfoMap c (bumpSelf ((stA.metaObjectInfoMap c).getD {})) }

/-- The whole tail of `objectAdded` after descriptor resolution. -/
def objAddedCore (env : MOEnv) (st1 : RegState) (obj c : Nat) : RegState :=
  let stB := objAddedMid st1 obj c
  let stC := if ((st1.metaObjectInfoMap c).getD {}).isDynamic then
      addAliveInstance env stB obj c
    else stB
  (ancestorChain stC.childParentMap c).foldl incStep stC

theorem objectAdded_destruct (env : MOEnv) (st : RegState) (obj : Nat)
    (st1 : RegState) (c : Nat)
    (h : addMetaObject env st (env.objMeta obj) (env.objDynamic obj) = (st1, c)) :
    objectAdded env st obj = objAddedCore env st1 obj c := by
  unfold objectAdded objAddedCore objAddedMid bumpSelf
  rw [h]

/-- The `take` + `operator[]` read-back prefix of `objectRemoved`. -/
def objRemovedTake (st : RegState) (obj m : Nat) : RegState :=
  let stA := { st with metaObjectMap := alErase st.metaObjectMap obj }
  { stA with metaObjectInfoMap := fupd stA.metaObjectInfoMap m ((stA.metaObjectInfoMap m).getD {}) }

/-- `objectRemoved` up to and including the self-alive decrement. -/
def objRemovedMid (st : RegState) (obj m : Nat) : RegState :=
  let stA2 := objRemovedTake st obj m
  let im := fupd stA2.metaObjectInfoMap m (decSelf ((st.metaObjectInfoMap m).getD {}))
  { stA2 with metaObjectInfoMap := im }

/-- The whole tail of `objectRemoved` once the object was found mapped to `m`. -/
def objRemovedCore (st : RegState) (obj m : Nat) : RegState :=
  if ((st.metaObjectInfoMap m).getD {}).selfAliveCount == (0 : Int) then
    objRemovedTake st obj m
  else
    let stB := objRemovedMid st obj m
    let stC := if (decSelf ((st.metaObjectInfoMap m).getD {})).isDynamic then
        removeAliveInstance stB obj m
      else stB
    (ancestorChain stC.childParentMap m).foldl decStep stC

theorem objectRemoved_destruct (st : RegState) (obj m : Nat)
    (h : alLookup st.metaObjectMap obj = some m) :
    objectRemoved st obj = objRemovedCore st obj m := by
  unfold objectRemoved objRemovedCore objRemovedMid objRemovedTake decSelf
  rw [h]

theorem objectRemoved_notFound (st : RegState) (obj : Nat)
    (h : alLookup st.metaObjectMap obj = none) :
    objectRemoved st obj = st := by
  unfold objectRemoved
  rw [h]

theorem alLookup_insert_self {β : Type} (l : List (Nat × β)) (k : Nat) (v : β) :
    alLookup (alInsert l k v) k = some v := by
  simp [alInsert, alLookup]

theorem alLookup_insert_ne {β : Type} (l : List (Nat × β)) (k : Nat) (v : β)
    (k2 : Nat) (h : k2 ≠ k) : alLookup (alInsert l k v) k2 = alLookup l k2 := by
  unfold alInsert
  rw [show alLookup ((k, v) :: l.filter (fun kv => kv.1 != k)) k2 =
    alLookup (l.filter (fun kv => kv.1 != k)) k2 from by simp [alLookup, h]]
  exact alLookup_erase_ne l k k2 h

theorem alLookup_erase_some {β : Type} {l : List (Nat × β)} {k o : Nat} {m : β}
    (h : alLookup (alErase l k) o = some m) : alLookup l o = some m := by
  by_cases ho : o = k
  · subst ho
    rw [alLookup_erase_self] at h
    exact Option.noConfusion h
  · rwa [alLookup_erase_ne l k o ho] at h

theorem objAddedMid_getInfo (st1 : RegState) (obj c n : Nat) :
    getInfo (objAddedMid st1 obj c) n =
      if n = c then bumpSelf (getInfo st1 c) else getInfo st1 n := by
  unfold objAddedMid getInfo
  by_cases h : n = c
  · subst h; simp [fupd]
  · simp [fupd, h]

theorem objAddedMid_infoMap (st1 : RegState) (obj c n : Nat) :
    (objAddedMid st1 obj c).metaObjectInfoMap n =
      if n = c then some (bumpSelf (getInfo st1 c)) else st1.metaObjectInfoMap n := by
  unfold objAddedMid getInfo
  by_cases h : n = c
  · subst h; simp [fupd]
  · simp [fupd, h]

theorem objAddedMid_cp (st1 : RegState) (obj c : Nat) :
    (objAddedMid st1 obj c).childParentMap = st1.childParentMap := rfl

theorem objAddedMid_mom (st1 : RegState) (obj c : Nat) :
    (objAddedMid st1 obj c).metaObjectMap = alInsert st1.metaObjectMap obj c := rfl

theorem objAddedMid_alive (st1 : RegState) (obj c : Nat) :
    (objAddedMid st1 obj c).aliveInstances = st1.aliveInstances := rfl

theorem objAddedMid_name (st1 : RegState) (obj c : Nat) :
    (objAddedMid st1 obj c).metaObjectNameMap = st1.metaObjectNameMap := rfl

theorem objAddedMid_emitted (st1 : RegState) (obj c : Nat) :
    (objAddedMid st1 obj c).emitted = st1.emitted := rfl

theorem addAliveInstance_cp (env : MOEnv) (s : RegState) (obj c : Nat) :
    (addAliveInstance env s obj c).childParentMap = s.childParentMap := rfl

theorem addAliveInstance_mom (env : MOEnv) (s : RegState) (obj c : Nat) :
    (addAliveInstance env s obj c).metaObjectMap = s.metaObjectMap := rfl

theorem addAliveInstance_infoMap (env : MOEnv) (s : RegState) (obj c : Nat) :
    (addAliveInstance env s obj c).metaObjectInfoMap = s.metaObjectInfoMap := rfl

theorem addAliveInstance_name (env : MOEnv) (s : RegState) (obj c : Nat) :
    (addAliveInstance env s obj c).metaObjectNameMap = s.metaObjectNameMap := rfl

theorem addAliveInstance_emitted (env : MOEnv) (s : RegState) (obj c : Nat) :
    (addAliveInstance env s obj c).emitted = s.emitted := rfl

theorem addAliveInstance_alive (env : MOEnv) (s : RegState) (obj c : Nat) :
    (addAliveInstance env s obj c).aliveInstances =
      fupd s.aliveInstances c
        (lowerBoundInsert ((s.aliveInstances c).getD []) (env.objMeta obj)) := rfl

theorem removeAliveInstance_cp (s : RegState) (obj c : Nat) :
    (removeAliveInstance s obj c).childParentMap = s.childParentMap := by
  unfold removeAliveInstance
  rcases s.dynamicMetaObjectMap obj with _ | a <;> rfl

theorem removeAliveInstance_mom (s : RegState) (obj c : Nat) :
    (removeAliveInstance s obj c).metaObjectMap = s.metaObjectMap := by
  unfold removeAliveInstance
  rcases s.dynamicMetaObjectMap obj with _ | a <;> rfl

theorem removeAliveInstance_infoMap (s : RegState) (obj c : Nat) :
    (removeAliveInstance s obj c).metaObjectInfoMap = s.metaObjectInfoMap := by
  unfold removeAliveInstance
  rcases s.dynamicMetaObjectMap obj with _ | a <;> rfl

theorem removeAliveInstance_name (s : RegState) (obj c : Nat) :
    (removeAliveInstance s obj c).metaObjectNameMap = s.metaObjectNameMap := by
  unfold removeAliveInstance
  rcases s.dynamicMetaObjectMap obj with _ | a <;> rfl

theorem removeAliveInstance_emitted (s : RegState) (obj c : Nat) :
    (removeAliveInstance s obj c).emitted = s.emitted := by
  unfold removeAliveInstance
  rcases s.dynamicMetaObjectMap obj with _ | a <;> rfl

theorem removeAliveInstance_alive (s : RegState) (obj c n : Nat) :
    (removeAliveInstance s obj c).aliveInstances n =
      if n = c then
        some (match s.dynamicMetaObjectMap obj with
          | some a => lowerBoundErase ((s.aliveInstances c).getD []) a
          | none => (s.aliveInstances c).getD [])
      else s.aliveInstances n := by
  unfold removeAliveInstance
  rcases s.dynamicMetaObjectMap obj with _ | a <;>
    by_cases h : n = c <;> simp [fupd, h]

theorem incStep_infoMap (s : RegState) (c n : Nat) :
    (incStep s c).metaObjectInfoMap n =
      if n = c then some (bumpInc (getInfo s c)) else s.metaObjectInfoMap n := by
  unfold incStep getInfo bumpInc
  by_cases h : n = c <;> simp [fupd, h]

theorem decStep_infoMap (s : RegState) (c n : Nat) :
    (decStep s c).metaObjectInfoMap n =
      if n = c then some (decInfo (getInfo s c)) else s.metaObjectInfoMap n := by
  unfold decStep getInfo decInfo
  by_cases h : n = c
  · subst h
    by_cases hc : ((((s.metaObjectInfoMap n).getD {}).inclusiveAliveCount - 1 == (0 : Int)) &&
        !((s.metaObjectInfoMap n).getD {}).isStatic) = true
    · simp only [hc, if_true, if_pos rfl, fupd_self]
    · simp only [hc, Bool.false_eq_true, if_false, if_pos rfl, fupd_self]
      rfl
  · by_cases hc : ((((s.metaObjectInfoMap c).getD {}).inclusiveAliveCount - 1 == (0 : Int)) &&
        !((s.metaObjectInfoMap c).getD {}).isStatic) = true
    · simp only [hc, if_true, if_neg h, fupd, if_neg h]
    · simp only [hc, Bool.false_eq_true, if_false, if_neg h, fupd, if_neg h]

theorem foldInc_infoMap (l : List Nat) (hnd : l.Nodup) : ∀ (s : RegState) (n : Nat),
    (l.foldl incStep s).metaObjectInfoMap n =
      if n ∈ l then some (bumpInc (getInfo s n)) else s.metaObjectInfoMap n := by
  induction l with
  | nil => intro s n; simp
  | cons a l ih =>
    intro s n
    rw [List.foldl_cons, ih (List.nodup_cons.mp hnd).2 (incStep s a) n]
    by_cases hmem : n ∈ l
    · have hna : n ≠ a := fun heq => (List.nodup_cons.mp hnd).1 (heq ▸ hmem)
      rw [if_pos hmem, if_pos (List.mem_cons_of_mem a hmem), incStep_getInfo, if_neg hna]
    · rw [if_neg hmem, incStep_infoMap]
      by_cases hna : n = a
      · subst hna
        rw [if_pos rfl, if_pos (List.mem_cons_self _ _)]
      · rw [if_neg hna, if_neg (by simp [hna, hmem])]

theorem foldDec_infoMap (l : List Nat) (hnd : l.Nodup) : ∀ (s : RegState) (n : Nat),
    (l.foldl decStep s).metaObjectInfoMap n =
      if n ∈ l then some (decInfo (getInfo s n)) else s.metaObjectInfoMap n := by
  induction l with
  | nil => intro s n; simp
  | cons a l ih =>
    intro s n
    rw [List.foldl_cons, ih (List.nodup_cons.mp hnd).2 (decStep s a) n]
    by_cases hmem : n ∈ l
    · have hna : n ≠ a := fun heq => (List.nodup_cons.mp hnd).1 (heq ▸ hmem)
      rw [if_pos hmem, if_pos (List.mem_cons_of_mem a hmem), decStep_getInfo, if_neg hna]
    · rw [if_neg hmem, decStep_infoMap]
      by_cases hna : n = a
      · subst hna
        rw [if_pos rfl, if_pos (List.mem_cons_self _ _)]
      · rw [if_neg hna, if_neg (by simp [hna, hmem])]

theorem bumpSelf_isDynamic (i : MetaObjectInfo) : (bumpSelf i).isDynamic = i.isDynamic := rfl

theorem bumpInc_isDynamic (i : MetaObjectInfo) : (bumpInc i).isDynamic = i.isDynamic := rfl

theorem decSelf_isDynamic (i : MetaObjectInfo) : (decSelf i).isDynamic = i.isDynamic := rfl

theorem decInfo_isDynamic (i : MetaObjectInfo) : (decInfo i).isDynamic = i.isDynamic := by
  unfold decInfo
  by_cases h : ((i.inclusiveAliveCount - 1 == (0 : Int)) && !i.isStatic) = true <;> simp [h]

theorem decInfo_isStatic (i : MetaObjectInfo) : (decInfo i).isStatic = i.isStatic := by
  unfold decInfo
  by_cases h : ((i.inclusiveAliveCount - 1 == (0 : Int)) && !i.isStatic) = true <;> simp [h]

theorem decInfo_invalid_static (i : MetaObjectInfo) (h : i.isStatic = true) :
    (decInfo i).invalid = i.invalid := by
  unfold decInfo
  simp [h]

/-! ## GraphInv is preserved by the lifecycle handlers -/

theorem objAddedMid_ginv (st1 : RegState) (obj c : Nat) (hinv : GraphInv st1)
    (hc : c ∈ st1.childParentMap.map Prod.fst) : GraphInv (objAddedMid st1 obj c) := by
  constructor
  case pe => rw [objAddedMid_cp]; exact hinv.pe
  case nodupCP => rw [objAddedMid_cp]; exact hinv.nodupCP
  case nameKnown =>
    intro s m hs
    rw [objAddedMid_name] at hs
    rw [objAddedMid_cp]
    exact hinv.nameKnown s m hs
  case infoDom =>
    intro n hn
    rw [objAddedMid_infoMap] at hn
    rw [objAddedMid_cp]
    by_cases h : n = c
    · subst h; exact hc
    · rw [if_neg h] at hn
      exact hinv.infoDom n hn
  case momKnown =>
    intro o m hm
    rw [objAddedMid_mom] at hm
    rw [objAddedMid_cp]
    by_cases h : o = obj
    · subst h
      rw [alLookup_insert_self] at hm
      injection hm with hm
      exact hm ▸ hc
    · rw [alLookup_insert_ne _ _ _ _ h] at hm
      exact hinv.momKnown o m hm
  case momNodup =>
    rw [objAddedMid_mom]
    exact alInsert_nodup _ _ _ hinv.momNodup
  case aliveDyn =>
    intro n l hl
    rw [objAddedMid_alive] at hl
    rw [objAddedMid_getInfo]
    by_cases h : n = c
    · subst h
      rw [if_pos rfl, bumpSelf_isDynamic]
      exact hinv.aliveDyn n l hl
    · rw [if_neg h]
      exact hinv.aliveDyn n l hl
  case aliveSorted =>
    intro n l hl
    rw [objAddedMid_alive] at hl
    exact hinv.aliveSorted n l hl
  case flagsExcl =>
    intro n hd
    rw [objAddedMid_getInfo] at hd ⊢
    by_cases h : n = c
    · subst h
      rw [if_pos rfl] at hd ⊢
      rw [bumpSelf_isDynamic] at hd
      exact hinv.flagsExcl n hd
    · rw [if_neg h] at hd ⊢
      exact hinv.flagsExcl n hd
  case staticValid =>
    intro n hs
    rw [objAddedMid_getInfo] at hs ⊢
    by_cases h : n = c
    · subst h
      rw [if_pos rfl] at hs ⊢
      exact hinv.staticValid n hs
    · rw [if_neg h] at hs ⊢
      exact hinv.staticValid n hs

theorem addAliveInstance_ginv (env : MOEnv) (s : RegState) (obj c : Nat)
    (hinv : GraphInv s) (hdyn : (getInfo s c).isDynamic = true) :
    GraphInv (addAliveInstance env s obj c) := by
  have hget : ∀ n, getInfo (addAliveInstance env s obj c) n = getInfo s n := by
    intro n
    unfold getInfo
    rw [addAliveInstance_infoMap]
  constructor
  case pe => rw [addAliveInstance_cp]; exact hinv.pe
  case nodupCP => rw [addAliveInstance_cp]; exact hinv.nodupCP
  case nameKnown =>
    intro s2 m hs
    rw [addAliveInstance_name] at hs
    rw [addAliveInstance_cp]
    exact hinv.nameKnown s2 m hs
  case infoDom =>
    intro n hn
    rw [addAliveInstance_infoMap] at hn
    rw [addAliveInstance_cp]
    exact hinv.infoDom n hn
  case momKnown =>
    intro o m hm
    rw [addAliveInstance_mom] at hm
    rw [addAliveInstance_cp]
    exact hinv.momKnown o m hm
  case momNodup => rw [addAliveInstance_mom]; exact hinv.momNodup
  case aliveDyn =>
    intro n l hl
    rw [addAliveInstance_alive] at hl
    rw [hget]
    by_cases h : n = c
    · subst h; exact hdyn
    · rw [fupd_ne _ _ _ _ h] at hl
      exact hinv.aliveDyn n l hl
  case aliveSorted =>
    intro n l hl
    rw [addAliveInstance_alive] at hl
    by_cases h : n = c
    · subst h
      rw [fupd_self] at hl
      injection hl with hl
      subst hl
      apply lowerBoundInsert_sorted
      rcases hp : s.aliveInstances n with _ | pool
      · simp
      · simpa using hinv.aliveSorted n pool hp
    · rw [fupd_ne _ _ _ _ h] at hl
      exact hinv.aliveSorted n l hl
  case flagsExcl =>
    intro n hd
    rw [hget] at hd ⊢
    exact hinv.flagsExcl n hd
  case staticValid =>
    intro n hs2
    rw [hget] at hs2 ⊢
    exact hinv.staticValid n hs2

theorem foldInc_ginv (s : RegState) (c : Nat) (hinv : GraphInv s)
    (hc : c ∈ s.childParentMap.map Prod.fst) :
    GraphInv ((ancestorChain s.childParentMap c).foldl incStep s) := by
  have hnd : (ancestorChain s.childParentMap c).Nodup :=
    ancestorChain_nodup hinv.pe hinv.nodupCP c
  have hsub : ∀ x ∈ ancestorChain s.childParentMap c, x ∈ s.childParentMap.map Prod.fst :=
    chainFuel_mem_keys hinv.pe _ c hc
  constructor
  case pe => rw [foldInc_cp]; exact hinv.pe
  case nodupCP => rw [foldInc_cp]; exact hinv.nodupCP
  case nameKnown =>
    intro s2 m hs
    rw [foldInc_name] at hs
    rw [foldInc_cp]
    exact hinv.nameKnown s2 m hs
  case infoDom =>
    intro n hn
    rw [foldInc_infoMap _ hnd] at hn
    rw [foldInc_cp]
    by_cases h : n ∈ ancestorChain s.childParentMap c
    · exact hsub n h
    · rw [if_neg h] at hn
      exact hinv.infoDom n hn
  case momKnown =>
    intro o m hm
    rw [foldInc_mom] at hm
    rw [foldInc_cp]
    exact hinv.momKnown o m hm
  case momNodup => rw [foldInc_mom]; exact hinv.momNodup
  case aliveDyn =>
    intro n l hl
    rw [foldInc_alive] at hl
    unfold getInfo
    rw [foldInc_infoMap _ hnd]
    by_cases h : n ∈ ancestorChain s.childParentMap c
    · rw [if_pos h]
      have := hinv.aliveDyn n l hl
      unfold getInfo at this
      simpa [bumpInc_isDynamic] using this
    · rw [if_neg h]
      exact hinv.aliveDyn n l hl
  case aliveSorted =>
    intro n l hl
    rw [foldInc_alive] at hl
    exact hinv.aliveSorted n l hl
  case flagsExcl =>
    intro n hd
    have hg : getInfo ((ancestorChain s.childParentMap c).foldl incStep s) n =
        if n ∈ ancestorChain s.childParentMap c then bumpInc (getInfo s n)
        else getInfo s n := foldInc_getInfo _ hnd s n
    rw [hg] at hd ⊢
    by_cases h : n ∈ ancestorChain s.childParentMap c
    · rw [if_pos h] at hd ⊢
      rw [bumpInc_isDynamic] at hd
      have := hinv.flagsExcl n hd
      simpa [bumpInc] using this
    · rw [if_neg h] at hd ⊢
      exact hinv.flagsExcl n hd
  case staticValid =>
    intro n hs2
    have hg : getInfo ((ancestorChain s.childParentMap c).foldl incStep s) n =
        if n ∈ ancestorChain s.childParentMap c then bumpInc (getInfo s n)
        else getInfo s n := foldInc_getInfo _ hnd s n
    rw [hg] at hs2 ⊢
    by_cases h : n ∈ ancestorChain s.childParentMap c
    · rw [if_pos h]
      simp [bumpInc]
    · rw [if_neg h] at hs2 ⊢
      exact hinv.staticValid n hs2

theorem objAddedCore_ginv (env : MOEnv) (st1 : RegState) (obj c : Nat)
    (hinv : GraphInv st1) (hc : c ∈ st1.childParentMap.map Prod.fst) :
    GraphInv (objAddedCore env st1 obj c) := by
  simp only [objAddedCore]
  by_cases hdyn : ((st1.metaObjectInfoMap c).getD {}).isDynamic = true
  · rw [if_pos hdyn]
    have hB := objAddedMid_ginv st1 obj c hinv hc
    have hdynB : (getInfo (objAddedMid st1 obj c) c).isDynamic = true := by
      rw [objAddedMid_getInfo, if_pos rfl, bumpSelf_isDynamic]
      exact hdyn
    have hC := addAliveInstance_ginv env (objAddedMid st1 obj c) obj c hB hdynB
    have hcC : c ∈ (addAliveInstance env (objAddedMid st1 obj c) obj c).childParentMap.map Prod.fst := by
      rw [addAliveInstance_cp, objAddedMid_cp]
      exact hc
    have := foldInc_ginv _ c hC hcC
    rw [addAliveInstance_cp, objAddedMid_cp] at this
    rwa [addAliveInstance_cp, objAddedMid_cp]
  · rw [if_neg hdyn]
    have hB := objAddedMid_ginv st1 obj c hinv hc
    have := foldInc_ginv _ c hB (by rw [objAddedMid_cp]; exact hc)
    rw [objAddedMid_cp] at this
    rwa [objAddedMid_cp]

theorem objectAdded_ginv (env : MOEnv) (st : RegState) (obj : Nat)
    (hinv : GraphInv st) : GraphInv (objectAdded env st obj) := by
  have hrec := addMeta_spec env (env.objMeta obj) st (env.objDynamic obj) hinv
  rw [objectAdded_destruct env st obj
    (addMetaObject env st (env.objMeta obj) (env.objDynamic obj)).1
    (addMetaObject env st (env.objMeta obj) (env.objDynamic obj)).2 rfl]
  exact objAddedCore_ginv env _ obj _ hrec.ginv hrec.resKnown

theorem infoWrite_ginv (s : RegState) (m : Nat) (f : MetaObjectInfo → MetaObjectInfo)
    (hinv : GraphInv s) (hm : m ∈ s.childParentMap.map Prod.fst)
    (hdynf : ∀ i, (f i).isDynamic = i.isDynamic)
    (hstatf : ∀ i, (f i).isStatic = i.isStatic)
    (hinvf : ∀ i, (f i).invalid = i.invalid) :
    GraphInv { s with metaObjectInfoMap := fupd s.metaObjectInfoMap m (f (getInfo s m)) } := by
  have hget : ∀ n, getInfo { s with metaObjectInfoMap := fupd s.metaObjectInfoMap m (f (getInfo s m)) } n =
      if n = m then f (getInfo s m) else getInfo s n := by
    intro n
    unfold getInfo
    by_cases h : n = m
    · subst h; simp [fupd]
    · simp [fupd, h]
  constructor
  case pe => exact hinv.pe
  case nodupCP => exact hinv.nodupCP
  case nameKnown => exact hinv.nameKnown
  case infoDom =>
    intro n hn
    simp only [fupd] at hn
    by_cases h : n = m
    · subst h; exact hm
    · rw [if_neg h] at hn
      exact hinv.infoDom n hn
  case momKnown => exact hinv.momKnown
  case momNodup => exact hinv.momNodup
  case aliveDyn =>
    intro n l hl
    rw [hget]
    by_cases h : n = m
    · subst h
      rw [if_pos rfl, hdynf]
      exact hinv.aliveDyn n l hl
    · rw [if_neg h]
      exact hinv.aliveDyn n l hl
  case aliveSorted => exact hinv.aliveSorted
  case flagsExcl =>
    intro n hd
    rw [hget] at hd ⊢
    by_cases h : n = m
    · subst h
      rw [if_pos rfl] at hd ⊢
      rw [hdynf] at hd
      rw [hstatf]
      exact hinv.flagsExcl n hd
    · rw [if_neg h] at hd ⊢
      exact hinv.flagsExcl n hd
  case staticValid =>
    intro n hs
    rw [hget] at hs ⊢
    by_cases h : n = m
    · subst h
      rw [if_pos rfl] at hs ⊢
      rw [hstatf] at hs
      rw [hinvf]
      exact hinv.staticValid n hs
    · rw [if_neg h] at hs ⊢
      exact hinv.staticValid n hs

theorem momErase_ginv (s : RegState) (obj : Nat) (hinv : GraphInv s) :
    GraphInv { s with metaObjectMap := alErase s.metaObjectMap obj } := by
  constructor
  case pe => exact hinv.pe
  case nodupCP => exact hinv.nodupCP
  case nameKnown => exact hinv.nameKnown
  case infoDom => exact hinv.infoDom
  case momKnown =>
    intro o m hm
    exact hinv.momKnown o m (alLookup_erase_some hm)
  case momNodup => exact alErase_nodup _ _ hinv.momNodup
  case aliveDyn => exact hinv.aliveDyn
  case aliveSorted => exact hinv.aliveSorted
  case flagsExcl => exact hinv.flagsExcl
  case staticValid => exact hinv.staticValid

theorem objRemovedTake_ginv (st : RegState) (obj m : Nat) (hinv : GraphInv st)
    (hm : m ∈ st.childParentMap.map Prod.fst) : GraphInv (objRemovedTake st obj m) :=
  infoWrite_ginv { st with metaObjectMap := alErase st.metaObjectMap obj } m id
    (momErase_ginv st obj hinv) hm (fun _ => rfl) (fun _ => rfl) (fun _ => rfl)

theorem removeAliveInstance_ginv (s : RegState) (obj c : Nat)
    (hinv : GraphInv s) (hdyn : (getInfo s c).isDynamic = true) :
    GraphInv (removeAliveInstance s obj c) := by
  have hget : ∀ n, getInfo (removeAliveInstance s obj c) n = getInfo s n := by
    intro n
    unfold getInfo
    rw [removeAliveInstance_infoMap]
  constructor
  case pe => rw [removeAliveInstance_cp]; exact hinv.pe
  case nodupCP => rw [removeAliveInstance_cp]; exact hinv.nodupCP
  case nameKnown =>
    intro s2 m hs
    rw [removeAliveInstance_name] at hs
    rw [removeAliveInstance_cp]
    exact hinv.nameKnown s2 m hs
  case infoDom =>
    intro n hn
    rw [removeAliveInstance_infoMap] at hn
    rw [removeAliveInstance_cp]
    exact hinv.infoDom n hn
  case momKnown =>
    intro o m hm
    rw [removeAliveInstance_mom] at hm
    rw [removeAliveInstance_cp]
    exact hinv.momKnown o m hm
  case momNodup => rw [removeAliveInstance_mom]; exact hinv.momNodup
  case aliveDyn =>
    intro n l hl
    rw [removeAliveInstance_alive] at hl
    rw [hget]
    by_cases h : n = c
    · subst h; exact hdyn
    · rw [if_neg h] at hl
      exact hinv.aliveDyn n l hl
  case aliveSorted =>
    intro n l hl
    rw [removeAliveInstance_alive] at hl
    by_cases h : n = c
    · subst h
      rw [if_pos rfl] at hl
      injection hl with hl
      have hpool : List.Sorted (· ≤ ·) ((s.aliveInstances n).getD []) := by
        rcases hp : s.aliveInstances n with _ | pool
        · simp
        · simpa using hinv.aliveSorted n pool hp
      rcases hdm : s.dynamicMetaObjectMap obj with _ | a
      · rw [hdm] at hl
        subst hl
        exact hpool
      · rw [hdm] at hl
        subst hl
        exact lowerBoundErase_sorted a _ hpool
    · rw [if_neg h] at hl
      exact hinv.aliveSorted n l hl
  case flagsExcl =>
    intro n hd
    rw [hget] at hd ⊢
    exact hinv.flagsExcl n hd
  case staticValid =>
    intro n hs2
    rw [hget] at hs2 ⊢
    exact hinv.staticValid n hs2

theorem foldDec_ginv (s : RegState) (c : Nat) (hinv : GraphInv s)
    (hc : c ∈ s.childParentMap.map Prod.fst) :
    GraphInv ((ancestorChain s.childParentMap c).foldl decStep s) := by
  have hnd : (ancestorChain s.childParentMap c).Nodup :=
    ancestorChain_nodup hinv.pe hinv.nodupCP c
  have hsub : ∀ x ∈ ancestorChain s.childParentMap c, x ∈ s.childParentMap.map Prod.fst :=
    chainFuel_mem_keys hinv.pe _ c hc
  have hg : ∀ n, getInfo ((ancestorChain s.childParentMap c).foldl decStep s) n =
      if n ∈ ancestorChain s.childParentMap c then decInfo (getInfo s n)
      else getInfo s n := fun n => foldDec_getInfo _ hnd s n
  constructor
  case pe => rw [foldDec_cp]; exact hinv.pe
  case nodupCP => rw [foldDec_cp]; exact hinv.nodupCP
  case nameKnown =>
    intro s2 m hs
    rw [foldDec_name] at hs
    rw [foldDec_cp]
    exact hinv.nameKnown s2 m hs
  case infoDom =>
    intro n hn
    rw [foldDec_infoMap _ hnd] at hn
    rw [foldDec_cp]
    by_cases h : n ∈ ancestorChain s.childParentMap c
    · exact hsub n h
    · rw [if_neg h] at hn
      exact hinv.infoDom n hn
  case momKnown =>
    intro o m hm
    rw [foldDec_mom] at hm
    rw [foldDec_cp]
    exact hinv.momKnown o m hm
  case momNodup => rw [foldDec_mom]; exact hinv.momNodup
  case aliveDyn =>
    intro n l hl
    rw [foldDec_alive] at hl
    rw [hg]
    by_cases h : n ∈ ancestorChain s.childParentMap c
    · rw [if_pos h, decInfo_isDynamic]
      exact hinv.aliveDyn n l hl
    · rw [if_neg h]
      exact hinv.aliveDyn n l hl
  case aliveSorted =>
    intro n l hl
    rw [foldDec_alive] at hl
    exact hinv.aliveSorted n l hl
  case flagsExcl =>
    intro n hd
    rw [hg] at hd ⊢
    by_cases h : n ∈ ancestorChain s.childParentMap c
    · rw [if_pos h, decInfo_isDynamic] at hd
      rw [if_pos h, decInfo_isStatic]
      exact hinv.flagsExcl n hd
    · rw [if_neg h] at hd ⊢
      exact hinv.flagsExcl n hd
  case staticValid =>
    intro n hs2
    rw [hg] at hs2 ⊢
    by_cases h : n ∈ ancestorChain s.childParentMap c
    · rw [if_pos h, decInfo_isStatic] at hs2
      rw [if_pos h, decInfo_invalid_static _ hs2]
      exact hinv.staticValid n hs2
    · rw [if_neg h] at hs2 ⊢
      exact hinv.staticValid n hs2

theorem objRemovedTake_infoMap (st : RegState) (obj m n : Nat) :
    (objRemovedTake st obj m).metaObjectInfoMap n =
      if n = m then some (getInfo st m) else st.metaObjectInfoMap n := by
  unfold objRemovedTake getInfo
  by_cases h : n = m
  · subst h; simp [fupd]
  · simp [fupd, h]

theorem objRemovedTake_getInfo (st : RegState) (obj m n : Nat) :
    getInfo (objRemovedTake st obj m) n = getInfo st n := by
  unfold getInfo
  rw [objRemovedTake_infoMap]
  by_cases h : n = m
  · subst h; simp [getInfo]
  · simp [h]

theorem objRemovedMid_infoMap (st : RegState) (obj m n : Nat) :
    (objRemovedMid st obj m).metaObjectInfoMap n =
      if n = m then some (decSelf (getInfo st m)) else st.metaObjectInfoMap n := by
  unfold objRemovedMid
  by_cases h : n = m
  · subst h
    simp only [fupd_self]
    rfl
  · simp only [fupd, if_neg h]
    rw [show (objRemovedTake st obj m).metaObjectInfoMap n =
      if n = m then some (getInfo st m) else st.metaObjectInfoMap n from
      objRemovedTake_infoMap st obj m n, if_neg h]

theorem objRemovedMid_getInfo (st : RegState) (obj m n : Nat) :
    getInfo (objRemovedMid st obj m) n =
      if n = m then decSelf (getInfo st m) else getInfo st n := by
  unfold getInfo
  rw [objRemovedMid_infoMap]
  by_cases h : n = m
  · subst h; simp [getInfo]
  · simp [h]

theorem objRemovedMid_cp (st : RegState) (obj m : Nat) :
    (objRemovedMid st obj m).childParentMap = st.childParentMap := rfl

theorem objRemovedMid_mom (st : RegState) (obj m : Nat) :
    (objRemovedMid st obj m).metaObjectMap = alErase st.metaObjectMap obj := rfl

theorem objRemovedMid_alive (st : RegState) (obj m : Nat) :
    (objRemovedMid st obj m).aliveInstances = st.aliveInstances := rfl

theorem objRemovedMid_name (st : RegState) (obj m : Nat) :
    (objRemovedMid st obj m).metaObjectNameMap = st.metaObjectNameMap := rfl

theorem objRemovedMid_dynMap (st : RegState) (obj m : Nat) :
    (objRemovedMid st obj m).dynamicMetaObjectMap = st.dynamicMetaObjectMap := rfl

theorem objRemovedMid_emitted (st : RegState) (obj m : Nat) :
    (objRemovedMid st obj m).emitted = st.emitted := rfl

theorem objRemovedMid_ginv (st : RegState) (obj m : Nat) (hinv : GraphInv st)
    (hm : m ∈ st.childParentMap.map Prod.fst) : GraphInv (objRemovedMid st obj m) := by
  have h := infoWrite_ginv (objRemovedTake st obj m) m decSelf
    (objRemovedTake_ginv st obj m hinv hm) hm (fun _ => rfl) (fun _ => rfl) (fun _ => rfl)
  have heq : ({ objRemovedTake st obj m with
      metaObjectInfoMap := fupd (objRemovedTake st obj m).metaObjectInfoMap m
        (decSelf (getInfo (objRemovedTake st obj m) m)) } : RegState) =
      objRemovedMid st obj m := by
    rw [objRemovedTake_getInfo]
    rfl
  rwa [heq] at h

theorem objRemovedCore_ginv (st : RegState) (obj m : Nat) (hinv : GraphInv st)
    (hm : m ∈ st.childParentMap.map Prod.fst) : GraphInv (objRemovedCore st obj m) := by
  simp only [objRemovedCore]
  by_cases hdrop : (((st.metaObjectInfoMap m).getD {}).selfAliveCount == (0 : Int)) = true
  · rw [if_pos hdrop]
    exact objRemovedTake_ginv st obj m hinv hm
  · rw [if_neg hdrop]
    have hB := objRemovedMid_ginv st obj m hinv hm
    by_cases hdyn : (decSelf ((st.metaObjectInfoMap m).getD {})).isDynamic = true
    · rw [if_pos hdyn]
      have hdynB : (getInfo (objRemovedMid st obj m) m).isDynamic = true := by
        rw [objRemovedMid_getInfo, if_pos rfl]
        exact hdyn
      have hC := removeAliveInstance_ginv (objRemovedMid st obj m) obj m hB hdynB
      exact foldDec_ginv _ m hC (by rw [removeAliveInstance_cp, objRemovedMid_cp]; exact hm)
    · rw [if_neg hdyn]
      exact foldDec_ginv _ m hB hm

theorem objectRemoved_ginv (st : RegState) (obj : Nat) (hinv : GraphInv st) :
    GraphInv (objectRemoved st obj) := by
  rcases h : alLookup st.metaObjectMap obj with _ | m
  · rw [objectRemoved_notFound st obj h]
    exact hinv
  · rw [objectRemoved_destruct st obj m h]
    exact objRemovedCore_ginv st obj m hinv (hinv.momKnown obj m h)

theorem runEvent_ginv (env : MOEnv) (st : RegState) (e : Event) (hinv : GraphInv st) :
    GraphInv (runEvent env st e) := by
  cases e with
  | add obj => exact objectAdded_ginv env st obj hinv
  | remove obj => exact objectRemoved_ginv st obj hinv
  | addMeta mo b => exact (addMeta_spec env mo st b hinv).ginv

theorem runEvents_ginv (env : MOEnv) : ∀ (evs : List Event) (st : RegState),
    GraphInv st → GraphInv (runEvents env st evs) := by
  intro evs
  induction evs with
  | nil => intro st h; exact h
  | cons e es ih =>
    intro st h
    exact ih (runEvent env st e) (runEvent_ginv env st e h)

theorem reach_ginv (env : MOEnv) (evs : List Event) :
    GraphInv (runEvents env initState evs) :=
  runEvents_ginv env evs initState graphInv_init

/-! ## The alive-count accounting invariant -/

theorem alLookup_of_mem {β : Type} {l : List (Nat × β)} {kv : Nat × β}
    (hnd : (l.map Prod.fst).Nodup) (h : kv ∈ l) : alLookup l kv.1 = some kv.2 := by
  induction l with
  | nil => simp at h
  | cons hd rest ih =>
    obtain ⟨k1, v1⟩ := hd
    rcases List.mem_cons.mp h with rfl | h2
    · simp [alLookup]
    · have hk : kv.1 ≠ k1 := by
        intro heq
        have hmm : kv.1 ∈ rest.map Prod.fst := List.mem_map_of_mem Prod.fst h2
        rw [heq] at hmm
        exact (List.nodup_cons.mp hnd).1 hmm
      rw [show alLookup ((k1, v1) :: rest) kv.1 = alLookup rest kv.1 from by
        simp [alLookup, hk]]
      exact ih (List.nodup_cons.mp hnd).2 h2

/-- The alive counters are exact: each node's `selfAliveCount` is the number of
currently tracked objects registered under that node, and its
`inclusiveAliveCount` counts the tracked objects whose canonical node's
ancestor walk passes through it.  `invalid` nodes have no alive descendants. -/
structure CountInv (st : RegState) : Prop where
  selfAlive : ∀ n, (getInfo st n).selfAliveCount =
    (st.metaObjectMap.countP (fun om => om.2 == n) : Int)
  inclAlive : ∀ n, (getInfo st n).inclusiveAliveCount =
    (st.metaObjectMap.countP
      (fun om => (ancestorChain st.childParentMap om.2).contains n) : Int)
  invalidZero : ∀ n, (getInfo st n).invalid = true →
    (getInfo st n).inclusiveAliveCount = 0

theorem countInv_init : CountInv initState := by
  constructor <;> intro n <;> simp [initState, getInfo]

theorem addMeta_cinv (env : MOEnv) (mo : Nat) (st : RegState) (b : Bool)
    (hg : GraphInv st) (hc : CountInv st) :
    CountInv (addMetaObject env st mo b).1 := by
  have hok := addMeta_spec env mo st b hg
  constructor
  case selfAlive =>
    intro n
    rw [hok.selfAliveEq n, hok.momEq]
    exact hc.selfAlive n
  case inclAlive =>
    intro n
    rw [hok.inclAliveEq n, hok.momEq]
    rw [hc.inclAlive n]
    congr 1
    apply List.countP_congr
    intro om hom
    have hlk : alLookup st.metaObjectMap om.1 = some om.2 :=
      alLookup_of_mem hg.momNodup hom
    have hmem : om.2 ∈ st.childParentMap.map Prod.fst := hg.momKnown om.1 om.2 hlk
    rw [ancestorChain_ext hg.pe hg.nodupCP hok.cpExt hok.cpLen om.2 hmem]
  case invalidZero =>
    intro n hn
    rw [hok.invalidEq n] at hn
    rw [hok.inclAliveEq n]
    exact hc.invalidZero n hn

theorem containsIffMem (l : List Nat) (n : Nat) : l.contains n = true ↔ n ∈ l := by
  simp

theorem bumpInc_selfAlive (i : MetaObjectInfo) :
    (bumpInc i).selfAliveCount = i.selfAliveCount := rfl

theorem bumpInc_selfCount (i : MetaObjectInfo) :
    (bumpInc i).selfCount = i.selfCount := rfl

theorem bumpSelf_selfAlive (i : MetaObjectInfo) :
    (bumpSelf i).selfAliveCount = i.selfAliveCount + 1 := rfl

theorem bumpSelf_incl (i : MetaObjectInfo) :
    (bumpSelf i).inclusiveCount = i.inclusiveCount := rfl

theorem bumpSelf_inclAlive (i : MetaObjectInfo) :
    (bumpSelf i).inclusiveAliveCount = i.inclusiveAliveCount := rfl

theorem bumpSelf_invalid (i : MetaObjectInfo) :
    (bumpSelf i).invalid = i.invalid := rfl

theorem bumpInc_inclAlive (i : MetaObjectInfo) :
    (bumpInc i).inclusiveAliveCount = i.inclusiveAliveCount + 1 := rfl

theorem bumpInc_incl (i : MetaObjectInfo) :
    (bumpInc i).inclusiveCount = i.inclusiveCount + 1 := rfl

theorem bumpInc_invalid (i : MetaObjectInfo) : (bumpInc i).invalid = false := rfl

theorem objAddedCore_cp (env : MOEnv) (st1 : RegState) (obj c : Nat) :
    (objAddedCore env st1 obj c).childParentMap = st1.childParentMap := by
  simp only [objAddedCore]
  by_cases hdyn : ((st1.metaObjectInfoMap c).getD {}).isDynamic = true
  · rw [if_pos hdyn, foldInc_cp, addAliveInstance_cp, objAddedMid_cp]
  · rw [if_neg hdyn, foldInc_cp, objAddedMid_cp]

theorem objAddedCore_mom (env : MOEnv) (st1 : RegState) (obj c : Nat) :
    (objAddedCore env st1 obj c).metaObjectMap = alInsert st1.metaObjectMap obj c := by
  simp only [objAddedCore]
  by_cases hdyn : ((st1.metaObjectInfoMap c).getD {}).isDynamic = true
  · rw [if_pos hdyn, foldInc_mom, addAliveInstance_mom, objAddedMid_mom]
  · rw [if_neg hdyn, foldInc_mom, objAddedMid_mom]

theorem objAddedCore_name (env : MOEnv) (st1 : RegState) (obj c : Nat) :
    (objAddedCore env st1 obj c).metaObjectNameMap = st1.metaObjectNameMap := by
  simp only [objAddedCore]
  by_cases hdyn : ((st1.metaObjectInfoMap c).getD {}).isDynamic = true
  · rw [if_pos hdyn, foldInc_name, addAliveInstance_name, objAddedMid_name]
  · rw [if_neg hdyn, foldInc_name, objAddedMid_name]

theorem objAddedCore_emitted (env : MOEnv) (st1 : RegState) (obj c : Nat) :
    (objAddedCore env st1 obj c).emitted =
      st1.emitted ++ (ancestorChain st1.childParentMap c).map REvent.dataChanged := by
  simp only [objAddedCore]
  by_cases hdyn : ((st1.metaObjectInfoMap c).getD {}).isDynamic = true
  · rw [if_pos hdyn, foldInc_emitted, addAliveInstance_cp, objAddedMid_cp,
      addAliveInstance_emitted, objAddedMid_emitted]
  · rw [if_neg hdyn, foldInc_emitted, objAddedMid_cp, objAddedMid_emitted]

theorem objAddedCore_getInfo (env : MOEnv) (st1 : RegState) (obj c : Nat)
    (hg1 : GraphInv st1) (n : Nat) :
    getInfo (objAddedCore env st1 obj c) n =
      if n ∈ ancestorChain st1.childParentMap c then
        bumpInc (if n = c then bumpSelf (getInfo st1 c) else getInfo st1 n)
      else if n = c then bumpSelf (getInfo st1 c) else getInfo st1 n := by
  have hnd : (ancestorChain st1.childParentMap c).Nodup :=
    ancestorChain_nodup hg1.pe hg1.nodupCP c
  simp only [objAddedCore]
  by_cases hdyn : ((st1.metaObjectInfoMap c).getD {}).isDynamic = true
  · rw [if_pos hdyn, addAliveInstance_cp, objAddedMid_cp, foldInc_getInfo _ hnd]
    have hstep : ∀ k, getInfo (addAliveInstance env (objAddedMid st1 obj c) obj c) k =
        getInfo (objAddedMid st1 obj c) k := by
      intro k
      unfold getInfo
      rw [addAliveInstance_infoMap]
    by_cases h : n ∈ ancestorChain st1.childParentMap c
    · rw [if_pos h, if_pos h, hstep, objAddedMid_getInfo]
    · rw [if_neg h, if_neg h, hstep, objAddedMid_getInfo]
  · rw [if_neg hdyn, objAddedMid_cp, foldInc_getInfo _ hnd]
    by_cases h : n ∈ ancestorChain st1.childParentMap c
    · rw [if_pos h, if_pos h, objAddedMid_getInfo]
    · rw [if_neg h, if_neg h, objAddedMid_getInfo]

theorem objectAdded_cinv (env : MOEnv) (st : RegState) (obj : Nat)
    (hg : GraphInv st) (hc : CountInv st)
    (hfresh : alLookup st.metaObjectMap obj = none) :
    CountInv (objectAdded env st obj) := by
  have hok := addMeta_spec env (env.objMeta obj) st (env.objDynamic obj) hg
  have hg1 := hok.ginv
  have hc1 := addMeta_cinv env (env.objMeta obj) st (env.objDynamic obj) hg hc
  rw [objectAdded_destruct env st obj
    (addMetaObject env st (env.objMeta obj) (env.objDynamic obj)).1
    (addMetaObject env st (env.objMeta obj) (env.objDynamic obj)).2 rfl]
  set st1 := (addMetaObject env st (env.objMeta obj) (env.objDynamic obj)).1 with hst1
  set c := (addMetaObject env st (env.objMeta obj) (env.objDynamic obj)).2 with hcdef
  have hfresh1 : alLookup st1.metaObjectMap obj = none := by
    rw [hok.momEq]
    exact hfresh
  have hmom : (objAddedCore env st1 obj c).metaObjectMap = (obj, c) :: st1.metaObjectMap := by
    rw [objAddedCore_mom]
    exact alInsert_fresh _ _ _ (by unfold alContains; rw [hfresh1]; rfl)
  constructor
  case selfAlive =>
    intro n
    rw [objAddedCore_getInfo env st1 obj c hg1 n, hmom, List.countP_cons]
    by_cases hch : n ∈ ancestorChain st1.childParentMap c
    · rw [if_pos hch, bumpInc_selfAlive]
      by_cases hnc : n = c
      · subst hnc
        rw [if_pos rfl, bumpSelf_selfAlive, hc1.selfAlive c]
        simp
      · rw [if_neg hnc, hc1.selfAlive n]
        have : ((obj, c).2 == n) = false := by
          simp only [beq_eq_false_iff_ne, ne_eq]
          exact fun heq => hnc heq.symm
        rw [this]
        simp
    · rw [if_neg hch]
      by_cases hnc : n = c
      · -- c is always the head of its own chain, contradiction
        exfalso
        apply hch
        rw [hnc, ancestorChain_cons hg1.pe hg1.nodupCP c]
        exact List.mem_cons_self _ _
      · rw [if_neg hnc, hc1.selfAlive n]
        have : ((obj, c).2 == n) = false := by
          simp only [beq_eq_false_iff_ne, ne_eq]
          exact fun heq => hnc heq.symm
        rw [this]
        simp
  case inclAlive =>
    intro n
    rw [objAddedCore_getInfo env st1 obj c hg1 n, hmom, objAddedCore_cp, List.countP_cons]
    by_cases hch : n ∈ ancestorChain st1.childParentMap c
    · rw [if_pos hch, bumpInc_inclAlive]
      have hcontains : ((ancestorChain st1.childParentMap (obj, c).2).contains n) = true :=
        (containsIffMem _ _).mpr hch
      rw [hcontains]
      by_cases hnc : n = c
      · subst hnc
        rw [if_pos rfl, bumpSelf_inclAlive, hc1.inclAlive c]
        simp
      · rw [if_neg hnc, hc1.inclAlive n]
        simp
    · rw [if_neg hch]
      have hcontains : ((ancestorChain st1.childParentMap (obj, c).2).contains n) = false := by
        rw [← Bool.not_eq_true]
        intro hcon
        exact hch ((containsIffMem _ _).mp hcon)
      rw [hcontains]
      by_cases hnc : n = c
      · exfalso
        apply hch
        rw [hnc, ancestorChain_cons hg1.pe hg1.nodupCP c]
        exact List.mem_cons_self _ _
      · rw [if_neg hnc, hc1.inclAlive n]
        simp
  case invalidZero =>
    intro n hn
    rw [objAddedCore_getInfo env st1 obj c hg1 n] at hn ⊢
    by_cases hch : n ∈ ancestorChain st1.childParentMap c
    · rw [if_pos hch, bumpInc_invalid] at hn
      exact absurd hn (by simp)
    · rw [if_neg hch] at hn ⊢
      by_cases hnc : n = c
      · exfalso
        apply hch
        rw [hnc, ancestorChain_cons hg1.pe hg1.nodupCP c]
        exact List.mem_cons_self _ _
      · rw [if_neg hnc] at hn ⊢
        exact hc1.invalidZero n hn

theorem mem_of_alLookup {β : Type} {l : List (Nat × β)} {k : Nat} {v : β}
    (h : alLookup l k = some v) : (k, v) ∈ l := by
  induction l with
  | nil => simp [alLookup] at h
  | cons hd rest ih =>
    obtain ⟨k1, v1⟩ := hd
    by_cases hk : k = k1
    · subst hk
      simp only [alLookup, if_true, eq_self_iff_true, Option.some.injEq] at h
      subst h
      exact List.mem_cons_self _ _
    · have : alLookup rest k = some v := by simpa [alLookup, hk] using h
      exact List.mem_cons_of_mem _ (ih this)

theorem decSelf_selfAlive (i : MetaObjectInfo) :
    (decSelf i).selfAliveCount = i.selfAliveCount - 1 := rfl

theorem decSelf_inclAlive (i : MetaObjectInfo) :
    (decSelf i).inclusiveAliveCount = i.inclusiveAliveCount := rfl

theorem decSelf_invalid (i : MetaObjectInfo) : (decSelf i).invalid = i.invalid := rfl

theorem decInfo_selfAlive (i : MetaObjectInfo) :
    (decInfo i).selfAliveCount = i.selfAliveCount := by
  unfold decInfo
  by_cases h : ((i.inclusiveAliveCount - 1 == (0 : Int)) && !i.isStatic) = true <;> simp [h]

theorem decInfo_inclAlive (i : MetaObjectInfo) :
    (decInfo i).inclusiveAliveCount = i.inclusiveAliveCount - 1 := by
  unfold decInfo
  by_cases h : ((i.inclusiveAliveCount - 1 == (0 : Int)) && !i.isStatic) = true <;> simp [h]

theorem decInfo_invalid (i : MetaObjectInfo) :
    (decInfo i).invalid =
      if ((i.inclusiveAliveCount - 1 == (0 : Int)) && !i.isStatic) = true then true
      else i.invalid := by
  unfold decInfo
  by_cases h : ((i.inclusiveAliveCount - 1 == (0 : Int)) && !i.isStatic) = true <;> simp [h]

theorem objRemovedCore_cp (st : RegState) (obj m : Nat) :
    (objRemovedCore st obj m).childParentMap = st.childParentMap := by
  simp only [objRemovedCore]
  by_cases hdrop : (((st.metaObjectInfoMap m).getD {}).selfAliveCount == (0 : Int)) = true
  · rw [if_pos hdrop]
    rfl
  · rw [if_neg hdrop]
    by_cases hdyn : (decSelf ((st.metaObjectInfoMap m).getD {})).isDynamic = true
    · rw [if_pos hdyn, foldDec_cp, removeAliveInstance_cp, objRemovedMid_cp]
    · rw [if_neg hdyn, foldDec_cp, objRemovedMid_cp]

theorem objRemovedCore_mom (st : RegState) (obj m : Nat) :
    (objRemovedCore st obj m).metaObjectMap = alErase st.metaObjectMap obj := by
  simp only [objRemovedCore]
  by_cases hdrop : (((st.metaObjectInfoMap m).getD {}).selfAliveCount == (0 : Int)) = true
  · rw [if_pos hdrop]
    rfl
  · rw [if_neg hdrop]
    by_cases hdyn : (decSelf ((st.metaObjectInfoMap m).getD {})).isDynamic = true
    · rw [if_pos hdyn, foldDec_mom, removeAliveInstance_mom, objRemovedMid_mom]
    · rw [if_neg hdyn, foldDec_mom, objRemovedMid_mom]

theorem objRemovedCore_getInfo (st : RegState) (obj m : Nat) (hg : GraphInv st)
    (hno : (((st.metaObjectInfoMap m).getD {}).selfAliveCount == (0 : Int)) = false)
    (n : Nat) :
    getInfo (objRemovedCore st obj m) n =
      if n ∈ ancestorChain st.childParentMap m then
        decInfo (if n = m then decSelf (getInfo st m) else getInfo st n)
      else if n = m then decSelf (getInfo st m) else getInfo st n := by
  have hnd : (ancestorChain st.childParentMap m).Nodup :=
    ancestorChain_nodup hg.pe hg.nodupCP m
  simp only [objRemovedCore, hno, Bool.false_eq_true, if_false]
  by_cases hdyn : (decSelf ((st.metaObjectInfoMap m).getD {})).isDynamic = true
  · rw [if_pos hdyn, removeAliveInstance_cp, objRemovedMid_cp, foldDec_getInfo _ hnd]
    have hstep : ∀ k, getInfo (removeAliveInstance (objRemovedMid st obj m) obj m) k =
        getInfo (objRemovedMid st obj m) k := by
      intro k
      unfold getInfo
      rw [removeAliveInstance_infoMap]
    by_cases h : n ∈ ancestorChain st.childParentMap m
    · rw [if_pos h, if_pos h, hstep, objRemovedMid_getInfo]
    · rw [if_neg h, if_neg h, hstep, objRemovedMid_getInfo]
  · rw [if_neg hdyn, objRemovedMid_cp, foldDec_getInfo _ hnd]
    by_cases h : n ∈ ancestorChain st.childParentMap m
    · rw [if_pos h, if_pos h, objRemovedMid_getInfo]
    · rw [if_neg h, if_neg h, objRemovedMid_getInfo]

theorem objectRemoved_cinv (st : RegState) (obj : Nat)
    (hg : GraphInv st) (hc : CountInv st) : CountInv (objectRemoved st obj) := by
  rcases h : alLookup st.metaObjectMap obj with _ | m
  · rw [objectRemoved_notFound st obj h]
    exact hc
  · have hmem : (obj, m) ∈ st.metaObjectMap := mem_of_alLookup h
    have hperm : st.metaObjectMap.Perm ((obj, m) :: alErase st.metaObjectMap obj) :=
      alPerm_of_lookup _ _ _ hg.momNodup h
    have hsplitT : ∀ p : Nat × Nat → Bool, p (obj, m) = true →
        (st.metaObjectMap.countP p : Int) =
          ((alErase st.metaObjectMap obj).countP p : Int) + 1 := by
      intro p hp
      rw [hperm.countP_eq p, List.countP_cons]
      simp [hp]
    have hsplitF : ∀ p : Nat × Nat → Bool, p (obj, m) = false →
        (st.metaObjectMap.countP p : Int) =
          ((alErase st.metaObjectMap obj).countP p : Int) := by
      intro p hp
      rw [hperm.countP_eq p, List.countP_cons]
      simp [hp]
    have hpos : (1 : Int) ≤ (getInfo st m).selfAliveCount := by
      rw [hc.selfAlive m, hsplitT (fun om => om.2 == m) (by simp)]
      simp
    have hno : (((st.metaObjectInfoMap m).getD {}).selfAliveCount == (0 : Int)) = false := by
      have : (getInfo st m).selfAliveCount ≠ 0 := by
        intro heq
        rw [heq] at hpos
        omega
      exact beq_eq_false_iff_ne.mpr this
    have hchainm : m ∈ ancestorChain st.childParentMap m := by
      rw [ancestorChain_cons hg.pe hg.nodupCP m]
      exact List.mem_cons_self _ _
    rw [objectRemoved_destruct st obj m h]
    constructor
    case selfAlive =>
      intro n
      rw [objRemovedCore_getInfo st obj m hg hno n, objRemovedCore_mom]
      by_cases hch : n ∈ ancestorChain st.childParentMap m
      · rw [if_pos hch, decInfo_selfAlive]
        by_cases hnm : n = m
        · subst hnm
          rw [if_pos rfl, decSelf_selfAlive]
          have h1 := hc.selfAlive n
          have h2 := hsplitT (fun om => om.2 == n) (by simp)
          omega
        · rw [if_neg hnm]
          have h1 := hc.selfAlive n
          have h2 := hsplitF (fun om => om.2 == n)
            (by
              simp only [beq_eq_false_iff_ne, ne_eq]
              exact fun heq => hnm heq.symm)
          omega
      · rw [if_neg hch]
        have hnm : n ≠ m := fun heq => hch (heq ▸ hchainm)
        rw [if_neg hnm]
        have h1 := hc.selfAlive n
        have h2 := hsplitF (fun om => om.2 == n)
          (by
            simp only [beq_eq_false_iff_ne, ne_eq]
            exact fun heq => hnm heq.symm)
        omega
    case inclAlive =>
      intro n
      rw [objRemovedCore_getInfo st obj m hg hno n, objRemovedCore_mom, objRemovedCore_cp]
      by_cases hch : n ∈ ancestorChain st.childParentMap m
      · rw [if_pos hch, decInfo_inclAlive]
        have h1 := hc.inclAlive n
        have h2 := hsplitT (fun om => (ancestorChain st.childParentMap om.2).contains n)
          ((containsIffMem _ _).mpr hch)
        by_cases hnm : n = m
        · subst hnm
          rw [if_pos rfl, decSelf_inclAlive]
          omega
        · rw [if_neg hnm]
          omega
      · rw [if_neg hch]
        have hnm : n ≠ m := fun heq => hch (heq ▸ hchainm)
        rw [if_neg hnm]
        have h1 := hc.inclAlive n
        have h2 := hsplitF (fun om => (ancestorChain st.childParentMap om.2).contains n)
          (by
            rw [← Bool.not_eq_true]
            intro hcon
            exact hch ((containsIffMem _ _).mp hcon))
        omega
    case invalidZero =>
      intro n hn
      rw [objRemovedCore_getInfo st obj m hg hno n] at hn ⊢
      by_cases hch : n ∈ ancestorChain st.childParentMap m
      · rw [if_pos hch] at hn ⊢
        rw [decInfo_inclAlive]
        set base := if n = m then decSelf (getInfo st m) else getInfo st n with hbase
        rw [decInfo_invalid] at hn
        by_cases hcond : ((base.inclusiveAliveCount - 1 == (0 : Int)) && !base.isStatic) = true
        · have := (Bool.and_eq_true _ _).mp hcond
          exact beq_iff_eq.mp this.1
        · rw [if_neg hcond] at hn
          -- the node was already invalid: impossible, it has an alive descendant
          exfalso
          have hbinv : base.invalid = (getInfo st n).invalid := by
            rw [hbase]
            by_cases hnm : n = m
            · rw [if_pos hnm, decSelf_invalid, hnm]
            · rw [if_neg hnm]
          rw [hbinv] at hn
          have hz := hc.invalidZero n hn
          have h1 := hc.inclAlive n
          have h2 := hsplitT (fun om => (ancestorChain st.childParentMap om.2).contains n)
            ((containsIffMem _ _).mpr hch)
          omega
      · rw [if_neg hch] at hn ⊢
        have hnm : n ≠ m := fun heq => hch (heq ▸ hchainm)
        rw [if_neg hnm] at hn ⊢
        exact hc.invalidZero n hn

theorem objectAdded_mom (env : MOEnv) (st : RegState) (obj : Nat) (hg : GraphInv st) :
    (objectAdded env st obj).metaObjectMap =
      alInsert st.metaObjectMap obj
        (addMetaObject env st (env.objMeta obj) (env.objDynamic obj)).2 := by
  rw [objectAdded_destruct env st obj
    (addMetaObject env st (env.objMeta obj) (env.objDynamic obj)).1
    (addMetaObject env st (env.objMeta obj) (env.objDynamic obj)).2 rfl]
  rw [objAddedCore_mom, (addMeta_spec env (env.objMeta obj) st (env.objDynamic obj) hg).momEq]

theorem objectRemoved_mom_some (st : RegState) (obj m : Nat)
    (h : alLookup st.metaObjectMap obj = some m) :
    (objectRemoved st obj).metaObjectMap = alErase st.metaObjectMap obj := by
  rw [objectRemoved_destruct st obj m h, objRemovedCore_mom]

theorem runEvents_inv (env : MOEnv) : ∀ (evs : List Event) (alive : List Nat) (st : RegState),
    GraphInv st → CountInv st → alive.Nodup →
    (∀ o, alive.contains o = true ↔ (alLookup st.metaObjectMap o).isSome = true) →
    validFrom alive evs = true →
    GraphInv (runEvents env st evs) ∧ CountInv (runEvents env st evs) := by
  intro evs
  induction evs with
  | nil =>
    intro alive st hg hc _ _ _
    exact ⟨hg, hc⟩
  | cons e es ih =>
    intro alive st hg hc hnd hcoup hval
    cases e with
    | add obj =>
      simp only [validFrom, Bool.and_eq_true] at hval
      obtain ⟨hnotmem, hval2⟩ := hval
      have hnot2 : obj ∉ alive := by simpa using hnotmem
      have hfresh : alLookup st.metaObjectMap obj = none := by
        rcases hlk : alLookup st.metaObjectMap obj with _ | v
        · rfl
        · exfalso
          have hcont : alive.contains obj = true := (hcoup obj).mpr (by simp [hlk])
          exact hnot2 ((containsIffMem _ _).mp hcont)
      refine ih (obj :: alive) (objectAdded env st obj) (objectAdded_ginv env st obj hg)
        (objectAdded_cinv env st obj hg hc hfresh) ?_ ?_ hval2
      · exact List.nodup_cons.mpr ⟨hnot2, hnd⟩
      · intro o
        rw [objectAdded_mom env st obj hg]
        by_cases ho : o = obj
        · subst ho
          rw [alLookup_insert_self]
          constructor
          · intro _; rfl
          · intro _
            exact (containsIffMem _ _).mpr (List.mem_cons_self _ _)
        · rw [alLookup_insert_ne _ _ _ _ ho]
          have hcons : (obj :: alive).contains o = true ↔ alive.contains o = true := by
            rw [containsIffMem, containsIffMem]
            constructor
            · intro hmm
              rcases List.mem_cons.mp hmm with heq | hmm2
              · exact absurd heq ho
              · exact hmm2
            · exact fun hmm => List.mem_cons_of_mem _ hmm
          rw [hcons]
          exact hcoup o
    | remove obj =>
      simp only [validFrom, Bool.and_eq_true] at hval
      obtain ⟨hmem, hval2⟩ := hval
      have hsome := (hcoup obj).mp hmem
      rcases hlk : alLookup st.metaObjectMap obj with _ | m
      · rw [hlk] at hsome
        exact absurd hsome (by simp)
      refine ih (alive.erase obj) (objectRemoved st obj) (objectRemoved_ginv st obj hg)
        (objectRemoved_cinv st obj hg hc) (hnd.erase obj) ?_ hval2
      intro o
      rw [objectRemoved_mom_some st obj m hlk]
      by_cases ho : o = obj
      · subst ho
        rw [alLookup_erase_self]
        constructor
        · intro hcon
          exact absurd ((containsIffMem _ _).mp hcon) (hnd.not_mem_erase)
        · intro hcon
          exact absurd hcon (by simp)
      · rw [alLookup_erase_ne _ _ _ ho]
        have herase : (alive.erase obj).contains o = true ↔ alive.contains o = true := by
          rw [containsIffMem, containsIffMem]
          exact List.mem_erase_of_ne ho
        rw [herase]
        exact hcoup o
    | addMeta mo b =>
      simp only [validFrom] at hval
      refine ih alive ((addMetaObject env st mo b).1) (addMeta_spec env mo st b hg).ginv
        (addMeta_cinv env mo st b hg hc) hnd ?_ hval
      intro o
      rw [(addMeta_spec env mo st b hg).momEq]
      exact hcoup o

theorem reach_cinv (env : MOEnv) (evs : List Event) (hval : validFrom [] evs = true) :
    CountInv (runEvents env initState evs) :=
  (runEvents_inv env evs [] initState graphInv_init countInv_init (by simp)
    (by intro o; simp [initState, alLookup, List.contains]) hval).2

/-! ## Concrete reflection environments for the scenarios -/

/-- Two distinct dynamic descriptors (1 and 2), both named `"ScriptObject"`,
with no superclass; objects 11 and 12 are dynamic instances of them. -/
def envD : MOEnv where
  className := fun m => if m = 1 ∨ m = 2 then "ScriptObject" else ""
  superClass := fun _ => none
  readOnly := fun _ => false
  objMeta := fun o => if o = 11 then 1 else if o = 12 then 2 else 0
  objDynamic := fun _ => true
  parent_lt := by intro m p h; simp at h

/-- A static three-level hierarchy `A (1) ← B (2) ← C (3)`; object 10 is an
instance of `C`. -/
def envA : MOEnv where
  className := fun m => if m = 1 then "A" else if m = 2 then "B" else if m = 3 then "C" else ""
  superClass := fun m => if m = 2 then some 1 else if m = 3 then some 2 else none
  readOnly := fun _ => true
  objMeta := fun _ => 3
  objDynamic := fun _ => false
  parent_lt := by
    intro m p h
    by_cases h2 : m = 2
    · simp [h2] at h; omega
    · by_cases h3 : m = 3
      · simp [h2, h3] at h; omega
      · simp [h2, h3] at h

/-- Dynamic descriptors: 1 named `"P"` (no superclass), 2 named `"S"` with
superclass 1, 3 named `"S"` (no superclass). -/
def envX : MOEnv where
  className := fun m => if m = 1 then "P" else if m = 2 ∨ m = 3 then "S" else ""
  superClass := fun m => if m = 2 then some 1 else none
  readOnly := fun _ => false
  objMeta := fun _ => 0
  objDynamic := fun _ => false
  parent_lt := by
    intro m p h
    by_cases h2 : m = 2
    · simp [h2] at h; omega
    · simp [h2] at h

/-- A static root 1 (`"QObject"`) with a dynamic subclass 2 (`"Scr"`);
objects 5 and 6 are dynamic instances of 2. -/
def envB : MOEnv where
  className := fun m => if m = 1 then "QObject" else if m = 2 then "Scr" else ""
  superClass := fun m => if m = 2 then some 1 else none
  readOnly := fun m => m = 1
  objMeta := fun _ => 2
  objDynamic := fun _ => true
  parent_lt := by
    intro m p h
    by_cases h2 : m = 2
    · simp [h2] at h; omega
    · simp [h2] at h

/-! ## The claims -/

theorem pe_decomp : ∀ (l1 : List (Nat × Option Nat)) (kpo : Nat × Option Nat)
    (l2 : List (Nat × Option Nat)) (l : List (Nat × Option Nat)),
    ParentsEarlier l → l = l1 ++ kpo :: l2 → ∀ p, kpo.2 = some p →
      p ∈ l2.map Prod.fst := by
  intro l1
  induction l1 with
  | nil =>
    intro kpo l2 l hpe hl p hp
    subst hl
    obtain ⟨k, po⟩ := kpo
    exact hpe.1 p hp
  | cons hd t ih =>
    intro kpo l2 l hpe hl p hp
    subst hl
    obtain ⟨k, po⟩ := hd
    exact ih kpo l2 (t ++ kpo :: l2) hpe.2 rfl p hp

/-- C2: in every registry state reachable by any sequence of inbound events,
every child/parent binding whose parent is non-null has its parent among the
strictly earlier registered nodes (the `childParentMap` list is kept newest
first), i.e. `addMetaObject` registers parents before children. -/
theorem parent_registered_first (env : MOEnv) (evs : List Event)
    (l1 : List (Nat × Option Nat)) (kpo : Nat × Option Nat)
    (l2 : List (Nat × Option Nat)) (p : Nat)
    (hcp : (runEvents env initState evs).childParentMap = l1 ++ kpo :: l2)
    (hp : kpo.2 = some p) : p ∈ l2.map Prod.fst :=
  pe_decomp l1 kpo l2 _ (reach_ginv env evs).pe hcp p hp

/-- C2 witness: after registering the chain `C → B → A` of `envA`, the entry
for node 3 points to node 2, which was registered strictly earlier. -/
theorem parent_registered_first_witness :
    (runEvents envA initState [Event.add 10]).childParentMap =
        [] ++ (3, some 2) :: [(2, some 1), (1, none)] ∧
      ((3, some 2) : Nat × Option Nat).2 = some 2 ∧
      2 ∈ ([(2, some 1), (1, none)] : List (Nat × Option Nat)).map Prod.fst :=
  ⟨by decide, rfl,
    parent_registered_first envA [Event.add 10] [] (3, some 2)
      [(2, some 1), (1, none)] 2 (by decide) rfl⟩

/-- C4: for every event sequence respecting the per-object add/remove
discipline, every root node's `inclusiveAliveCount` equals the number of
currently tracked objects whose canonical node has that root on its ancestor
walk, and no alive counter is ever negative. -/
theorem root_alive_accounting (env : MOEnv) (evs : List Event) (st : RegState)
    (hst : st = runEvents env initState evs)
    (hval : validFrom [] evs = true) :
    (∀ r, alLookup st.childParentMap r = some none →
      (getInfo st r).inclusiveAliveCount =
        (st.metaObjectMap.countP
          (fun om => (ancestorChain st.childParentMap om.2).contains r) : Int)) ∧
    (∀ n, 0 ≤ (getInfo st n).selfAliveCount ∧
      0 ≤ (getInfo st n).inclusiveAliveCount) := by
  subst hst
  have hc := reach_cinv env evs hval
  constructor
  · intro r _
    exact hc.inclAlive r
  · intro n
    constructor
    · rw [hc.selfAlive n]
      positivity
    · rw [hc.inclAlive n]
      positivity

/-- C4 witness: the one-object scenario of `envB`. -/
theorem root_alive_accounting_witness :
    ((runEvents envB initState [Event.add 5]) = runEvents envB initState [Event.add 5] ∧
      validFrom [] [Event.add 5] = true) ∧
    (∀ n, 0 ≤ (getInfo (runEvents envB initState [Event.add 5]) n).selfAliveCount ∧
      0 ≤ (getInfo (runEvents envB initState [Event.add 5]) n).inclusiveAliveCount) :=
  ⟨⟨rfl, by decide⟩,
    (root_alive_accounting envB [Event.add 5] _ rfl (by decide)).2⟩

theorem isStatic_eq (st : RegState) (n : Nat) :
    isStatic st n = ((st.metaObjectInfoMap n).isSome && (getInfo st n).isStatic) := by
  unfold isStatic getInfo
  rcases h : st.metaObjectInfoMap n with _ | i <;> simp

theorem isValid_eq (st : RegState) (n : Nat) :
    isValid st n = ((st.metaObjectInfoMap n).isSome && !(getInfo st n).invalid) := by
  unfold isValid getInfo
  rcases h : st.metaObjectInfoMap n with _ | i <;> simp

/-- C7: a node classified static is never invalid: in every reachable registry
state, `isValid` holds for every node for which `isStatic` holds. -/
theorem static_never_invalid (env : MOEnv) (evs : List Event) (n : Nat)
    (hstat : isStatic (runEvents env initState evs) n = true) :
    isValid (runEvents env initState evs) n = true := by
  have hg := reach_ginv env evs
  rw [isStatic_eq, Bool.and_eq_true] at hstat
  rw [isValid_eq, Bool.and_eq_true]
  refine ⟨hstat.1, ?_⟩
  rw [hg.staticValid n hstat.2]
  rfl

/-- C7 witness: in the `envB` scenario after an add and a remove, node 1 is
static and still valid. -/
theorem static_never_invalid_witness :
    isStatic (runEvents envB initState [Event.add 5, Event.remove 5]) 1 = true ∧
    isValid (runEvents envB initState [Event.add 5, Event.remove 5]) 1 = true :=
  ⟨by decide, static_never_invalid envB [Event.add 5, Event.remove 5] 1 (by decide)⟩

theorem alInsert_keys_sub {β : Type} (l : List (Nat × β)) (m k : Nat) (v : β)
    (h : k ∈ (alInsert l m v).map Prod.fst) : k = m ∨ k ∈ l.map Prod.fst := by
  unfold alInsert at h
  simp only [List.map_cons, List.mem_cons] at h
  rcases h with h | h
  · exact Or.inl h
  · rcases List.mem_map.mp h with ⟨a, ha, hfst⟩
    exact Or.inr (hfst ▸ List.mem_map_of_mem Prod.fst (List.mem_of_mem_filter ha))

theorem addMeta_name_stable (env : MOEnv) (nm : String) (cn : Nat) :
    ∀ mo st b, st.metaObjectNameMap nm = some cn →
      (addMetaObject env st mo b).1.metaObjectNameMap nm = some cn := by
  intro mo
  induction mo using Nat.strong_induction_on with
  | _ mo ih =>
    intro st b hname
    by_cases hk : isKnownMetaObject st mo
    · have heq : addMetaObject env st mo b = (st, mo) := by
        simp [addMetaObject, addMetaObjectFuel, hk]
      rw [heq]
      exact hname
    · rcases hsc : env.superClass mo with _ | p
      · unfold addMetaObject
        simp only [addMetaObjectFuel, hk, Bool.false_eq_true, if_false, hsc]
        by_cases hm : (!env.readOnly mo && b) = true
        · simp only [hm, if_true]
          rcases hnm : st.metaObjectNameMap (env.className mo) with _ | canonical
          · simp only [hnm]
            rw [registerNode_name]
            have hne : nm ≠ env.className mo := by
              intro h
              rw [h, hnm] at hname
              exact Option.noConfusion hname
            show supd st.metaObjectNameMap (env.className mo) mo nm = some cn
            simp only [supd]
            rw [if_neg hne]
            exact hname
          · simp only [hnm]
            exact hname
        · simp only [hm, Bool.false_eq_true, if_false]
          rw [registerNode_name]
          exact hname
      · by_cases hkp : isKnownMetaObject st p
        · unfold addMetaObject
          simp only [addMetaObjectFuel, hk, Bool.false_eq_true, if_false, hsc, hkp, if_true]
          by_cases hm : (!env.readOnly mo && b) = true
          · simp only [hm, if_true]
            rcases hnm : st.metaObjectNameMap (env.className mo) with _ | canonical
            · simp only [hnm]
              rw [registerNode_name]
              have hne : nm ≠ env.className mo := by
                intro h
                rw [h, hnm] at hname
                exact Option.noConfusion hname
              show supd st.metaObjectNameMap (env.className mo) mo nm = some cn
              simp only [supd]
              rw [if_neg hne]
              exact hname
            · simp only [hnm]
              exact hname
          · simp only [hm, Bool.false_eq_true, if_false]
            rw [registerNode_name]
            exact hname
        · have hp : p < mo := env.parent_lt mo p hsc
          have hname1 := ih p hp st b hname
          have hcongr : addMetaObjectFuel env mo st p b = addMetaObject env st p b :=
            addMetaObjectFuel_congr env mo st p b hp
          unfold addMetaObject
          simp only [addMetaObjectFuel, hk, Bool.false_eq_true, if_false, hsc, hkp, hcongr]
          by_cases hm : (!env.readOnly mo && b) = true
          · simp only [hm, if_true]
            rcases hnm : (addMetaObject env st p b).1.metaObjectNameMap (env.className mo)
              with _ | canonical
            · simp only [hnm]
              rw [registerNode_name]
              have hne : nm ≠ env.className mo := by
                intro h
                rw [h, hnm] at hname1
                exact Option.noConfusion hname1
              show supd (addMetaObject env st p b).1.metaObjectNameMap
                (env.className mo) mo nm = some cn
              simp only [supd]
              rw [if_neg hne]
              exact hname1
            · simp only [hnm]
              exact hname1
          · simp only [hm, Bool.false_eq_true, if_false]
            rw [registerNode_name]
            exact hname1

theorem addMeta_cp_keys (env : MOEnv) :
    ∀ mo st b k,
      k ∈ ((addMetaObject env st mo b).1.childParentMap.map Prod.fst) →
      k ∈ st.childParentMap.map Prod.fst ∨ k ≤ mo := by
  intro mo
  induction mo using Nat.strong_induction_on with
  | _ mo ih =>
    intro st b k hmem
    by_cases hk : isKnownMetaObject st mo
    · have heq : addMetaObject env st mo b = (st, mo) := by
        simp [addMetaObject, addMetaObjectFuel, hk]
      rw [heq] at hmem
      exact Or.inl hmem
    · rcases hsc : env.superClass mo with _ | p
      · unfold addMetaObject at hmem
        simp only [addMetaObjectFuel, hk, Bool.false_eq_true, if_false, hsc] at hmem
        by_cases hm : (!env.readOnly mo && b) = true
        · simp only [hm, if_true] at hmem
          rcases hnm : st.metaObjectNameMap (env.className mo) with _ | canonical
          · simp only [hnm] at hmem
            rw [registerNode_cp] at hmem
            rcases alInsert_keys_sub _ mo k _ hmem with h | h
            · exact Or.inr (le_of_eq h)
            · exact Or.inl h
          · simp only [hnm] at hmem
            exact Or.inl hmem
        · simp only [hm, Bool.false_eq_true, if_false] at hmem
          rw [registerNode_cp] at hmem
          rcases alInsert_keys_sub _ mo k _ hmem with h | h
          · exact Or.inr (le_of_eq h)
          · exact Or.inl h
      · by_cases hkp : isKnownMetaObject st p
        · unfold addMetaObject at hmem
          simp only [addMetaObjectFuel, hk, Bool.false_eq_true, if_false, hsc, hkp,
            if_true] at hmem
          by_cases hm : (!env.readOnly mo && b) = true
          · simp only [hm, if_true] at hmem
            rcases hnm : st.metaObjectNameMap (env.className mo) with _ | canonical
            · simp only [hnm] at hmem
              rw [registerNode_cp] at hmem
              rcases alInsert_keys_sub _ mo k _ hmem with h | h
              · exact Or.inr (le_of_eq h)
              · exact Or.inl h
            · simp only [hnm] at hmem
              exact Or.inl hmem
          · simp only [hm, Bool.false_eq_true, if_false] at hmem
            rw [registerNode_cp] at hmem
            rcases alInsert_keys_sub _ mo k _ hmem with h | h
            · exact Or.inr (le_of_eq h)
            · exact Or.inl h
        · have hp : p < mo := env.parent_lt mo p hsc
          have hcongr : addMetaObjectFuel env mo st p b = addMetaObject env st p b :=
            addMetaObjectFuel_congr env mo st p b hp
          unfold addMetaObject at hmem
          simp only [addMetaObjectFuel, hk, Bool.false_eq_true, if_false, hsc, hkp,
            hcongr] at hmem
          by_cases hm : (!env.readOnly mo && b) = true
          · simp only [hm, if_true] at hmem
            rcases hnm : (addMetaObject env st p b).1.metaObjectNameMap (env.className mo)
              with _ | canonical
            · simp only [hnm] at hmem
              rw [registerNode_cp] at hmem
              rcases alInsert_keys_sub _ mo k _ hmem with h | h
              · exact Or.inr (le_of_eq h)
              · rcases ih p hp st b k h with h2 | h2
                · exact Or.inl h2
                · exact Or.inr (le_trans h2 (le_of_lt hp))
            · simp only [hnm] at hmem
              rcases ih p hp st b k hmem with h2 | h2
              · exact Or.inl h2
              · exact Or.inr (le_trans h2 (le_of_lt hp))
          · simp only [hm, Bool.false_eq_true, if_false] at hmem
            rw [registerNode_cp] at hmem
            rcases alInsert_keys_sub _ mo k _ hmem with h | h
            · exact Or.inr (le_of_eq h)
            · rcases ih p hp st b k h with h2 | h2
              · exact Or.inl h2
              · exact Or.inr (le_trans h2 (le_of_lt hp))

/-- C1 counterexample: in `envX`, node 3 is the registered canonical for name
`"S"`; calling `addMetaObject` on the unknown same-named dynamic descriptor 2
returns the canonical 3, but it is not true that no new node is created: the
previously unknown parent 1 gets registered by the recursive parent-first
step. -/
theorem merge_returns_canonical_cx :
    isKnownMetaObject (runEvents envX initState [Event.addMeta 3 true]) 2 = false ∧
    envX.readOnly 2 = false ∧
    (runEvents envX initState [Event.addMeta 3 true]).metaObjectNameMap
      (envX.className 2) = some 3 ∧
    (addMetaObject envX (runEvents envX initState [Event.addMeta 3 true]) 2 true).2 = 3 ∧
    isKnownMetaObject (runEvents envX initState [Event.addMeta 3 true]) 1 = false ∧
    isKnownMetaObject
      (addMetaObject envX (runEvents envX initState [Event.addMeta 3 true]) 2 true).1 1 = true := by
  refine ⟨?_, ?_, ?_, ?_, ?_, ?_⟩ <;> decide

/-- C1 (amended): registering an unknown dynamic (non-read-only) descriptor
whose class name already has a canonical node in the name map returns that
canonical descriptor and never registers the descriptor itself, although
previously unknown ancestors are still registered first by the parent-first
recursion; when the descriptor's parent is null or already known the state is
completely unchanged.  Two same-named dynamic descriptors that each register
one instance account to one canonical node with `selfCount = 2`. -/
theorem merge_returns_canonical :
    (∀ (env : MOEnv) (st : RegState) (mo cn : Nat),
      isKnownMetaObject st mo = false →
      env.readOnly mo = false →
      st.metaObjectNameMap (env.className mo) = some cn →
      (addMetaObject env st mo true).2 = cn ∧
      isKnownMetaObject (addMetaObject env st mo true).1 mo = false) ∧
    (∀ (env : MOEnv) (st : RegState) (mo cn : Nat),
      isKnownMetaObject st mo = false →
      env.readOnly mo = false →
      st.metaObjectNameMap (env.className mo) = some cn →
      (env.superClass mo = none ∨
        ∃ p, env.superClass mo = some p ∧ isKnownMetaObject st p = true) →
      addMetaObject env st mo true = (st, cn)) ∧
    ((getInfo (runEvents envD initState [Event.add 11, Event.add 12]) 1).selfCount = 2 ∧
      (getInfo (runEvents envD initState [Event.add 11, Event.add 12]) 1).selfAliveCount = 2 ∧
      isKnownMetaObject (runEvents envD initState [Event.add 11, Event.add 12]) 2 = false) := by
  have hstrong : ∀ (env : MOEnv) (st : RegState) (mo cn : Nat),
      isKnownMetaObject st mo = false →
      env.readOnly mo = false →
      st.metaObjectNameMap (env.className mo) = some cn →
      (env.superClass mo = none ∨
        ∃ p, env.superClass mo = some p ∧ isKnownMetaObject st p = true) →
      addMetaObject env st mo true = (st, cn) := by
    intro env st mo cn hk hro hnm hpar
    unfold addMetaObject
    rcases hpar with hsc | ⟨p, hsc, hkp⟩
    · simp [addMetaObjectFuel, hk, hsc, hro, hnm]
    · simp [addMetaObjectFuel, hk, hsc, hkp, hro, hnm]
  refine ⟨?_, hstrong, ?_, ?_, ?_⟩
  · intro env st mo cn hk hro hnm
    rcases hsc : env.superClass mo with _ | p
    · rw [hstrong env st mo cn hk hro hnm (Or.inl hsc)]
      exact ⟨rfl, hk⟩
    · by_cases hkp : isKnownMetaObject st p
      · rw [hstrong env st mo cn hk hro hnm (Or.inr ⟨p, hsc, hkp⟩)]
        exact ⟨rfl, hk⟩
      · have hp : p < mo := env.parent_lt mo p hsc
        have hcongr : addMetaObjectFuel env mo st p true = addMetaObject env st p true :=
          addMetaObjectFuel_congr env mo st p true hp
        have hname1 := addMeta_name_stable env (env.className mo) cn p st true hnm
        have hm : (!env.readOnly mo && true) = true := by rw [hro]; rfl
        have heq : addMetaObjectFuel env (mo + 1) st mo true =
            ((addMetaObject env st p true).1, cn) := by
          simp only [addMetaObjectFuel, hk, Bool.false_eq_true, if_false, hsc, hkp,
            hcongr, hm, if_true, hname1]
        have heq2 : addMetaObject env st mo true = ((addMetaObject env st p true).1, cn) :=
          heq
        rw [heq2]
        refine ⟨rfl, ?_⟩
        unfold isKnownMetaObject
        apply (alContains_false _ _).mpr
        intro hmem
        rcases addMeta_cp_keys env p st true mo hmem with h | h
        · have h2 : isKnownMetaObject st mo = true :=
            (alContains_iff_mem _ _).mpr h
          rw [hk] at h2
          exact Bool.noConfusion h2
        · omega
  · decide
  · decide
  · decide

/-- C1 witness: the amended statements applied in `envD` after the first
`"ScriptObject"` descriptor was registered. -/
theorem merge_returns_canonical_witness :
    (isKnownMetaObject (runEvents envD initState [Event.add 11]) 2 = false ∧
      envD.readOnly 2 = false ∧
      (runEvents envD initState [Event.add 11]).metaObjectNameMap
        (envD.className 2) = some 1) ∧
    (addMetaObject envD (runEvents envD initState [Event.add 11]) 2 true).2 = 1 ∧
    isKnownMetaObject
      (addMetaObject envD (runEvents envD initState [Event.add 11]) 2 true).1 2 = false ∧
    addMetaObject envD (runEvents envD initState [Event.add 11]) 2 true =
      (runEvents envD initState [Event.add 11], 1) :=
  ⟨⟨by decide, by decide, by decide⟩,
    (merge_returns_canonical.1 envD (runEvents envD initState [Event.add 11]) 2 1
      (by decide) (by decide) (by decide)).1,
    (merge_returns_canonical.1 envD (runEvents envD initState [Event.add 11]) 2 1
      (by decide) (by decide) (by decide)).2,
    merge_returns_canonical.2.1 envD (runEvents envD initState [Event.add 11]) 2 1
      (by decide) (by decide) (by decide) (Or.inl (by decide))⟩

/-- C8 counterexample: a dynamic node registered by a merge-enabled
`addMetaObject` but never instantiated has no alive-instance set, and
`aliveInstance` returns the node itself rather than none. -/
theorem alive_instance_cx :
    (getInfo (runEvents envX initState [Event.addMeta 3 true]) 3).isDynamic = true ∧
    (runEvents envX initState [Event.addMeta 3 true]).aliveInstances 3 = none ∧
    aliveInstance (runEvents envX initState [Event.addMeta 3 true]) 3 = some 3 ∧
    aliveInstance (runEvents envX initState [Event.addMeta 3 true]) 3 ≠ none := by
  refine ⟨?_, ?_, ?_, ?_⟩ <;> decide

/-- C8 (amended): in every reachable state, `aliveInstance` returns the node
itself when the node has no alive-instance set (in particular for every
static node, which never has one, and for dynamic nodes never instantiated);
when a set exists it is sorted (every insertion and removal keeps it so), and
`aliveInstance` returns its minimum, or none when it is empty. -/
theorem alive_instance_spec (env : MOEnv) (evs : List Event) (st : RegState) (n : Nat)
    (hst : st = runEvents env initState evs) :
    (st.aliveInstances n = none → aliveInstance st n = some n) ∧
    (isStatic st n = true → st.aliveInstances n = none) ∧
    (st.aliveInstances n = some [] → aliveInstance st n = none) ∧
    (∀ l, st.aliveInstances n = some l → List.Sorted (· ≤ ·) l) ∧
    (∀ l, st.aliveInstances n = some l → l ≠ [] →
      ∃ mn, aliveInstance st n = some mn ∧ mn ∈ l ∧ ∀ x ∈ l, mn ≤ x) := by
  subst hst
  have hg := reach_ginv env evs
  refine ⟨?_, ?_, ?_, ?_, ?_⟩
  · intro h
    unfold aliveInstance
    rw [h]
  · intro hstat
    rw [isStatic_eq, Bool.and_eq_true] at hstat
    rcases h : (runEvents env initState evs).aliveInstances n with _ | l
    · rfl
    · exfalso
      have hdyn := hg.aliveDyn n l h
      have := hg.flagsExcl n hdyn
      rw [this] at hstat
      exact Bool.noConfusion hstat.2
  · intro h
    unfold aliveInstance
    rw [h]
    rfl
  · intro l h
    exact hg.aliveSorted n l h
  · intro l h hne
    rcases l with _ | ⟨hd, tl⟩
    · exact absurd rfl hne
    · refine ⟨hd, ?_, List.mem_cons_self _ _, ?_⟩
      · unfold aliveInstance
        rw [h]
        rfl
      · intro x hx
        rcases List.mem_cons.mp hx with rfl | hx2
        · exact le_refl _
        · exact List.rel_of_sorted_cons (hg.aliveSorted n _ h) x hx2

/-- C8 witness: the `envB` scenario, a dynamic node with two live instances. -/
theorem alive_instance_spec_witness :
    ((runEvents envB initState [Event.add 5, Event.add 6]).aliveInstances 2 =
        some [2, 2] ∧ ([2, 2] : List Nat) ≠ []) ∧
    (∃ mn, aliveInstance (runEvents envB initState [Event.add 5, Event.add 6]) 2 =
        some mn ∧ mn ∈ ([2, 2] : List Nat) ∧ ∀ x ∈ ([2, 2] : List Nat), mn ≤ x) :=
  ⟨⟨by decide, by decide⟩,
    (alive_instance_spec envB [Event.add 5, Event.add 6] _ 2 rfl).2.2.2.2
      [2, 2] (by decide) (by decide)⟩

theorem bumpSelf_selfCount (i : MetaObjectInfo) :
    (bumpSelf i).selfCount = i.selfCount + 1 := rfl

theorem filter_map_dc (l : List Nat) :
    (l.map REvent.dataChanged).filter isDataChangedEv = l.map REvent.dataChanged := by
  induction l with
  | nil => rfl
  | cons a t ih => simp [isDataChangedEv, ih]

/-- C3: one `objectAdded` call bumps `selfCount`/`selfAliveCount` of the
canonical node by one, bumps `inclusiveCount`/`inclusiveAliveCount` by one on
exactly the nodes of the canonical node's ancestor walk (which starts at the
canonical node itself), leaves every other counter unchanged, and emits one
`dataChanged` notification per visited node; in the static `A ← B ← C`
scenario, adding one instance of `C` gives `selfCount(C) = 1` and inclusive
count 1 on `A`, `B` and `C`. -/
theorem objectAdded_counts :
    (∀ (env : MOEnv) (evs : List Event) (st st1 : RegState) (obj c : Nat)
      (chain : List Nat),
      st = runEvents env initState evs →
      addMetaObject env st (env.objMeta obj) (env.objDynamic obj) = (st1, c) →
      chain = ancestorChain st1.childParentMap c →
      c ∈ chain ∧
      (getInfo (objectAdded env st obj) c).selfCount = (getInfo st c).selfCount + 1 ∧
      (getInfo (objectAdded env st obj) c).selfAliveCount =
        (getInfo st c).selfAliveCount + 1 ∧
      (∀ n ∈ chain,
        (getInfo (objectAdded env st obj) n).inclusiveCount =
          (getInfo st n).inclusiveCount + 1 ∧
        (getInfo (objectAdded env st obj) n).inclusiveAliveCount =
          (getInfo st n).inclusiveAliveCount + 1) ∧
      (∀ n ∈ chain, n ≠ c →
        (getInfo (objectAdded env st obj) n).selfCount = (getInfo st n).selfCount ∧
        (getInfo (objectAdded env st obj) n).selfAliveCount =
          (getInfo st n).selfAliveCount) ∧
      (∀ n, n ∉ chain →
        (getInfo (objectAdded env st obj) n).selfCount = (getInfo st n).selfCount ∧
        (getInfo (objectAdded env st obj) n).selfAliveCount =
          (getInfo st n).selfAliveCount ∧
        (getInfo (objectAdded env st obj) n).inclusiveCount =
          (getInfo st n).inclusiveCount ∧
        (getInfo (objectAdded env st obj) n).inclusiveAliveCount =
          (getInfo st n).inclusiveAliveCount) ∧
      ((objectAdded env st obj).emitted.filter isDataChangedEv =
        st.emitted.filter isDataChangedEv ++ chain.map REvent.dataChanged)) ∧
    ((getInfo (runEvents envA initState [Event.add 10]) 3).selfCount = 1 ∧
      (getInfo (runEvents envA initState [Event.add 10]) 1).inclusiveCount = 1 ∧
      (getInfo (runEvents envA initState [Event.add 10]) 2).inclusiveCount = 1 ∧
      (getInfo (runEvents envA initState [Event.add 10]) 3).inclusiveCount = 1) := by
  constructor
  · intro env evs st st1 obj c chain hst hadd hchain
    have hg : GraphInv st := by rw [hst]; exact reach_ginv env evs
    have hok := addMeta_spec env (env.objMeta obj) st (env.objDynamic obj) hg
    rw [hadd] at hok
    have hg1 : GraphInv st1 := hok.ginv
    have hcc : c ∈ chain := by
      rw [hchain, ancestorChain_cons hg1.pe hg1.nodupCP c]
      exact List.mem_cons_self _ _
    rw [objectAdded_destruct env st obj st1 c hadd]
    subst hchain
    refine ⟨hcc, ?_, ?_, ?_, ?_, ?_, ?_⟩
    · rw [objAddedCore_getInfo env st1 obj c hg1 c, if_pos hcc, if_pos rfl,
        bumpInc_selfCount, bumpSelf_selfCount, hok.selfCountEq c]
    · rw [objAddedCore_getInfo env st1 obj c hg1 c, if_pos hcc, if_pos rfl,
        bumpInc_selfAlive, bumpSelf_selfAlive, hok.selfAliveEq c]
    · intro n hn
      rw [objAddedCore_getInfo env st1 obj c hg1 n, if_pos hn]
      by_cases hnc : n = c
      · subst hnc
        rw [if_pos rfl, bumpInc_incl, bumpInc_inclAlive, bumpSelf_incl,
          bumpSelf_inclAlive, hok.inclCountEq n, hok.inclAliveEq n]
        exact ⟨rfl, rfl⟩
      · rw [if_neg hnc, bumpInc_incl, bumpInc_inclAlive, hok.inclCountEq n,
          hok.inclAliveEq n]
        exact ⟨rfl, rfl⟩
    · intro n hn hnc
      rw [objAddedCore_getInfo env st1 obj c hg1 n, if_pos hn, if_neg hnc,
        bumpInc_selfCount, bumpInc_selfAlive, hok.selfCountEq n, hok.selfAliveEq n]
      exact ⟨rfl, rfl⟩
    · intro n hn
      have hnc : n ≠ c := fun heq => hn (heq ▸ hcc)
      rw [objAddedCore_getInfo env st1 obj c hg1 n, if_neg hn, if_neg hnc,
        hok.selfCountEq n, hok.selfAliveEq n, hok.inclCountEq n, hok.inclAliveEq n]
      exact ⟨rfl, rfl, rfl, rfl⟩
    · rw [objAddedCore_emitted, List.filter_append, hok.dcEq, filter_map_dc]
  · refine ⟨?_, ?_, ?_, ?_⟩ <;> decide

/-- C3 witness: adding object 10 in `envA` from the fresh registry bumps the
canonical node's `selfCount`. -/
theorem objectAdded_counts_witness :
    (initState = runEvents envA initState [] ∧
      addMetaObject envA initState (envA.objMeta 10) (envA.objDynamic 10) =
        ((addMetaObject envA initState (envA.objMeta 10) (envA.objDynamic 10)).1,
          (addMetaObject envA initState (envA.objMeta 10) (envA.objDynamic 10)).2)) ∧
    (getInfo (objectAdded envA initState 10)
        (addMetaObject envA initState (envA.objMeta 10) (envA.objDynamic 10)).2).selfCount =
      (getInfo initState
        (addMetaObject envA initState (envA.objMeta 10) (envA.objDynamic 10)).2).selfCount + 1 :=
  ⟨⟨rfl, rfl⟩,
    (objectAdded_counts.1 envA [] initState _ 10 _ _ rfl rfl rfl).2.1⟩

theorem decSelf_isStatic (i : MetaObjectInfo) : (decSelf i).isStatic = i.isStatic := rfl

theorem tracked_selfAlive_pos (st : RegState) (obj m : Nat) (hg : GraphInv st)
    (hc : CountInv st) (h : alLookup st.metaObjectMap obj = some m) :
    (1 : Int) ≤ (getInfo st m).selfAliveCount := by
  rw [hc.selfAlive m]
  have hmem : (obj, m) ∈ st.metaObjectMap := mem_of_alLookup h
  have hpos : 0 < st.metaObjectMap.countP (fun om => om.2 == m) :=
    List.countP_pos.mpr ⟨(obj, m), hmem, by simp⟩
  exact_mod_cast hpos

theorem tracked_inclAlive_pos (st : RegState) (obj m n : Nat) (hg : GraphInv st)
    (hc : CountInv st) (h : alLookup st.metaObjectMap obj = some m)
    (hch : n ∈ ancestorChain st.childParentMap m) :
    (1 : Int) ≤ (getInfo st n).inclusiveAliveCount := by
  rw [hc.inclAlive n]
  have hmem : (obj, m) ∈ st.metaObjectMap := mem_of_alLookup h
  have hpos : 0 < st.metaObjectMap.countP
      (fun om => (ancestorChain st.childParentMap om.2).contains n) :=
    List.countP_pos.mpr ⟨(obj, m), hmem, (containsIffMem _ _).mpr hch⟩
  exact_mod_cast hpos

/-- C5: across any valid event history, the `invalid` flag changes only as
follows.  At an `objectAdded` step it is cleared on exactly the nodes of the
canonical node's ancestor walk (precisely those whose `inclusiveAliveCount`
the step increments) and unchanged elsewhere; at an `objectRemoved` step of a
tracked object the flag turns from false to true exactly on the walked
non-static nodes whose `inclusiveAliveCount` just reached zero; removals of
untracked objects and direct `addMetaObject` registrations never change any
`invalid` flag; and no `objectRemoved` step ever clears a set flag, so at no
other step does the flag change. -/
theorem invalid_flag_transitions (env : MOEnv) (evs : List Event) (st : RegState)
    (hst : st = runEvents env initState evs)
    (hval : validFrom [] evs = true) :
    (∀ obj n,
      (getInfo (objectAdded env st obj) n).invalid =
        ((getInfo st n).invalid &&
          !((ancestorChain
              (addMetaObject env st (env.objMeta obj) (env.objDynamic obj)).1.childParentMap
              (addMetaObject env st (env.objMeta obj) (env.objDynamic obj)).2).contains n)) ∧
      (((ancestorChain
            (addMetaObject env st (env.objMeta obj) (env.objDynamic obj)).1.childParentMap
            (addMetaObject env st (env.objMeta obj) (env.objDynamic obj)).2).contains n) = true ↔
        (getInfo (objectAdded env st obj) n).inclusiveAliveCount =
          (getInfo st n).inclusiveAliveCount + 1)) ∧
    (∀ obj m n, alLookup st.metaObjectMap obj = some m →
      (((getInfo (objectRemoved st obj) n).invalid = true ∧
          (getInfo st n).invalid = false) ↔
        (n ∈ ancestorChain st.childParentMap m ∧
          (getInfo (objectRemoved st obj) n).inclusiveAliveCount = 0 ∧
          (getInfo st n).isStatic = false))) ∧
    (∀ obj, alLookup st.metaObjectMap obj = none → objectRemoved st obj = st) ∧
    (∀ mo b n, (getInfo (addMetaObject env st mo b).1 n).invalid =
      (getInfo st n).invalid) ∧
    (∀ obj n, (getInfo st n).invalid = true →
      (getInfo (objectRemoved st obj) n).invalid = true) := by
  have hg : GraphInv st := by rw [hst]; exact reach_ginv env evs
  have hcnt : CountInv st := by rw [hst]; exact reach_cinv env evs hval
  refine ⟨?_, ?_, ?_, ?_, ?_⟩
  · intro obj n
    have hok := addMeta_spec env (env.objMeta obj) st (env.objDynamic obj) hg
    have hg1 : GraphInv (addMetaObject env st (env.objMeta obj) (env.objDynamic obj)).1 :=
      hok.ginv
    rw [objectAdded_destruct env st obj
      (addMetaObject env st (env.objMeta obj) (env.objDynamic obj)).1
      (addMetaObject env st (env.objMeta obj) (env.objDynamic obj)).2 rfl]
    set st1 := (addMetaObject env st (env.objMeta obj) (env.objDynamic obj)).1
    set c := (addMetaObject env st (env.objMeta obj) (env.objDynamic obj)).2
    have hcc : c ∈ ancestorChain st1.childParentMap c := by
      rw [ancestorChain_cons hg1.pe hg1.nodupCP c]
      exact List.mem_cons_self _ _
    rw [objAddedCore_getInfo env st1 obj c hg1 n]
    by_cases hch : n ∈ ancestorChain st1.childParentMap c
    · have hcon : ((ancestorChain st1.childParentMap c).contains n) = true :=
        (containsIffMem _ _).mpr hch
      rw [if_pos hch, hcon, bumpInc_invalid, bumpInc_inclAlive]
      constructor
      · simp
      · constructor
        · intro _
          by_cases hnc : n = c
          · subst hnc
            rw [if_pos rfl, bumpSelf_inclAlive, hok.inclAliveEq c]
          · rw [if_neg hnc, hok.inclAliveEq n]
        · intro _; rfl
    · have hcon : ((ancestorChain st1.childParentMap c).contains n) = false := by
        rw [← Bool.not_eq_true]
        intro hcon2
        exact hch ((containsIffMem _ _).mp hcon2)
      have hnc : n ≠ c := fun heq => hch (heq ▸ hcc)
      rw [if_neg hch, if_neg hnc, hcon, hok.invalidEq n, hok.inclAliveEq n]
      constructor
      · simp
      · constructor
        · intro hfalse
          exact absurd hfalse (by simp)
        · intro heq
          exfalso
          omega
  · intro obj m n h
    have hpos := tracked_selfAlive_pos st obj m hg hcnt h
    have hno : (((st.metaObjectInfoMap m).getD {}).selfAliveCount == (0 : Int)) = false := by
      apply beq_eq_false_iff_ne.mpr
      intro heq
      have : (getInfo st m).selfAliveCount = 0 := heq
      omega
    have hchainm : m ∈ ancestorChain st.childParentMap m := by
      rw [ancestorChain_cons hg.pe hg.nodupCP m]
      exact List.mem_cons_self _ _
    rw [objectRemoved_destruct st obj m h]
    rw [objRemovedCore_getInfo st obj m hg hno n]
    constructor
    · rintro ⟨hinv2, hinv0⟩
      by_cases hch : n ∈ ancestorChain st.childParentMap m
      · rw [if_pos hch] at hinv2
        rw [decInfo_invalid] at hinv2
        by_cases hcond : (((if n = m then decSelf (getInfo st m)
            else getInfo st n).inclusiveAliveCount - 1 == (0 : Int)) &&
            !(if n = m then decSelf (getInfo st m) else getInfo st n).isStatic) = true
        · obtain ⟨hz, hs⟩ := (Bool.and_eq_true _ _).mp hcond
          refine ⟨hch, ?_, ?_⟩
          · rw [if_pos hch, decInfo_inclAlive]
            exact beq_iff_eq.mp hz
          · by_cases hnm : n = m
            · rw [if_pos hnm, decSelf_isStatic] at hs
              rw [hnm]
              simpa using hs
            · rw [if_neg hnm] at hs
              simpa using hs
        · rw [if_neg hcond] at hinv2
          exfalso
          by_cases hnm : n = m
          · rw [if_pos hnm, decSelf_invalid] at hinv2
            rw [hnm] at hinv0
            rw [hinv0] at hinv2
            exact Bool.noConfusion hinv2
          · rw [if_neg hnm] at hinv2
            rw [hinv0] at hinv2
            exact Bool.noConfusion hinv2
      · exfalso
        rw [if_neg hch] at hinv2
        have hnm : n ≠ m := fun heq => hch (heq ▸ hchainm)
        rw [if_neg hnm] at hinv2
        rw [hinv0] at hinv2
        exact Bool.noConfusion hinv2
    · rintro ⟨hch, hz, hstat⟩
      have hinv0 : (getInfo st n).invalid = false := by
        by_contra hcon
        have htrue : (getInfo st n).invalid = true := by
          rcases hb : (getInfo st n).invalid
          · exact absurd hb hcon
          · rfl
        have h0 := hcnt.invalidZero n htrue
        have h1 := tracked_inclAlive_pos st obj m n hg hcnt h hch
        omega
      rw [if_pos hch] at hz ⊢
      rw [decInfo_inclAlive] at hz
      refine ⟨?_, hinv0⟩
      rw [decInfo_invalid]
      have hbase_stat : (if n = m then decSelf (getInfo st m)
          else getInfo st n).isStatic = false := by
        by_cases hnm : n = m
        · rw [if_pos hnm, decSelf_isStatic, ← hnm]
          exact hstat
        · rw [if_neg hnm]
          exact hstat
      rw [if_pos ?_]
      rw [Bool.and_eq_true]
      refine ⟨beq_iff_eq.mpr hz, ?_⟩
      rw [hbase_stat]
      rfl
  · intro obj hnone
    exact objectRemoved_notFound st obj hnone
  · intro mo b n
    exact (addMeta_spec env mo st b hg).invalidEq n
  · intro obj n hinv
    rcases hlk : alLookup st.metaObjectMap obj with _ | m
    · rw [objectRemoved_notFound st obj hlk]
      exact hinv
    · rw [objectRemoved_destruct st obj m hlk]
      by_cases hdrop : (((st.metaObjectInfoMap m).getD {}).selfAliveCount == (0 : Int)) = true
      · unfold objRemovedCore
        rw [if_pos hdrop, objRemovedTake_getInfo]
        exact hinv
      · have hno : (((st.metaObjectInfoMap m).getD {}).selfAliveCount == (0 : Int)) = false := by
          rcases hb : (((st.metaObjectInfoMap m).getD {}).selfAliveCount == (0 : Int))
          · rfl
          · exact absurd hb hdrop
        rw [objRemovedCore_getInfo st obj m hg hno n]
        by_cases hch : n ∈ ancestorChain st.childParentMap m
        · rw [if_pos hch, decInfo_invalid]
          by_cases hcond : (((if n = m then decSelf (getInfo st m)
              else getInfo st n).inclusiveAliveCount - 1 == (0 : Int)) &&
              !(if n = m then decSelf (getInfo st m) else getInfo st n).isStatic) = true
          · rw [if_pos hcond]
          · rw [if_neg hcond]
            by_cases hnm2 : n = m
            · rw [if_pos hnm2, decSelf_invalid, ← hnm2]
              exact hinv
            · rw [if_neg hnm2]
              exact hinv
        · rw [if_neg hch]
          by_cases hnm2 : n = m
          · rw [if_pos hnm2, decSelf_invalid, ← hnm2]
            exact hinv
          · rw [if_neg hnm2]
            exact hinv

theorem invalid_flag_transitions_witness :
    validFrom [] [Event.add 5, Event.remove 5] = true ∧
    (getInfo (runEvents envB initState [Event.add 5, Event.remove 5]) 2).invalid = true ∧
    (getInfo (objectRemoved
      (runEvents envB initState [Event.add 5, Event.remove 5]) 9) 2).invalid = true ∧
    (∀ obj, alLookup
        (runEvents envB initState [Event.add 5, Event.remove 5]).metaObjectMap obj = none →
      objectRemoved (runEvents envB initState [Event.add 5, Event.remove 5]) obj =
        runEvents envB initState [Event.add 5, Event.remove 5]) :=
  ⟨by decide, by decide,
    (invalid_flag_transitions envB [Event.add 5, Event.remove 5]
      (runEvents envB initState [Event.add 5, Event.remove 5]) rfl
      (by decide)).2.2.2.2 9 2 (by decide),
    (invalid_flag_transitions envB [Event.add 5, Event.remove 5]
      (runEvents envB initState [Event.add 5, Event.remove 5]) rfl (by decide)).2.2.1⟩

/-- C6: `objectRemoved` leaves the whole registry state untouched when the
object has no entry in the object-to-descriptor map, and when the mapped
node's `selfAliveCount` is already zero the decrement is dropped: every
node's info record (counters and flags) is unchanged, no `dataChanged`
notification is emitted, and the alive-instance pools are untouched. -/
theorem objectRemoved_defensive (st : RegState) (obj : Nat) :
    (alLookup st.metaObjectMap obj = none → objectRemoved st obj = st) ∧
    (∀ m, alLookup st.metaObjectMap obj = some m →
      (getInfo st m).selfAliveCount = 0 →
      (∀ n, getInfo (objectRemoved st obj) n = getInfo st n) ∧
      (objectRemoved st obj).emitted = st.emitted ∧
      (objectRemoved st obj).aliveInstances = st.aliveInstances) := by
  constructor
  · intro h
    exact objectRemoved_notFound st obj h
  · intro m h hz
    have hdrop : (((st.metaObjectInfoMap m).getD {}).selfAliveCount == (0 : Int)) = true :=
      beq_iff_eq.mpr hz
    rw [objectRemoved_destruct st obj m h]
    unfold objRemovedCore
    rw [if_pos hdrop]
    exact ⟨fun n => objRemovedTake_getInfo st obj m n, rfl, rfl⟩

theorem objectRemoved_defensive_witness :
    alLookup ({ initState with metaObjectMap := [(5, 1)] } : RegState).metaObjectMap 5 =
      some 1 ∧
    (getInfo { initState with metaObjectMap := [(5, 1)] } 1).selfAliveCount = 0 ∧
    getInfo (objectRemoved { initState with metaObjectMap := [(5, 1)] } 5) 1 =
      getInfo { initState with metaObjectMap := [(5, 1)] } 1 :=
  ⟨by decide, by decide,
    ((objectRemoved_defensive { initState with metaObjectMap := [(5, 1)] } 5).2 1
      (by decide) (by decide)).1 1⟩

/-- C10: the defensive drop in `objectRemoved` is not atomic.  When the mapped
node's `selfAliveCount` is already zero, the object-to-descriptor entry has
already been removed before the drop: the map equals the erased map, looking
the object up now fails, every info record and the alive-instance pools are
unchanged, and a second `objectRemoved` for the same object is a complete
no-op. -/
theorem defensive_drop_not_atomic (st : RegState) (obj m : Nat)
    (h : alLookup st.metaObjectMap obj = some m)
    (hz : (getInfo st m).selfAliveCount = 0) :
    (objectRemoved st obj).metaObjectMap = alErase st.metaObjectMap obj ∧
    alLookup (objectRemoved st obj).metaObjectMap obj = none ∧
    (∀ n, getInfo (objectRemoved st obj) n = getInfo st n) ∧
    (objectRemoved st obj).aliveInstances = st.aliveInstances ∧
    objectRemoved (objectRemoved st obj) obj = objectRemoved st obj := by
  have hdrop : (((st.metaObjectInfoMap m).getD {}).selfAliveCount == (0 : Int)) = true :=
    beq_iff_eq.mpr hz
  have hmom : (objectRemoved st obj).metaObjectMap = alErase st.metaObjectMap obj := by
    rw [objectRemoved_destruct st obj m h, objRemovedCore_mom]
  have hnone : alLookup (objectRemoved st obj).metaObjectMap obj = none := by
    rw [hmom]
    exact alLookup_erase_self st.metaObjectMap obj
  refine ⟨hmom, hnone, ?_, ?_, objectRemoved_notFound _ obj hnone⟩
  · intro n
    rw [objectRemoved_destruct st obj m h]
    unfold objRemovedCore
    rw [if_pos hdrop]
    exact objRemovedTake_getInfo st obj m n
  · rw [objectRemoved_destruct st obj m h]
    unfold objRemovedCore
    rw [if_pos hdrop]
    rfl

theorem defensive_drop_not_atomic_witness :
    alLookup ({ initState with metaObjectMap := [(7, 2)] } : RegState).metaObjectMap 7 =
      some 2 ∧
    (getInfo { initState with metaObjectMap := [(7, 2)] } 2).selfAliveCount = 0 ∧
    objectRemoved (objectRemoved { initState with metaObjectMap := [(7, 2)] } 7) 7 =
      objectRemoved { initState with metaObjectMap := [(7, 2)] } 7 :=
  ⟨by decide, by decide,
    (defensive_drop_not_atomic { initState with metaObjectMap := [(7, 2)] } 7 2
      (by decide) (by decide)).2.2.2.2⟩

theorem runFilePaths_ready_fix (ids : List Nat) (s : IconsClientState)
    (h : s.ready = true) : runFilePaths s ids = s := by
  induction ids with
  | nil => rfl
  | cons id ids ih =>
    show runFilePaths (clientFilePath s id).2 ids = s
    have h2 : (clientFilePath s id).2 = s := by
      simp [clientFilePath, h]
    rw [h2]
    exact ih

theorem runFilePaths_request_bound (ids : List Nat) :
    ∀ s : IconsClientState, s.ready = false →
      (runFilePaths s ids).requestsSent ≤ s.requestsSent + 1 := by
  induction ids with
  | nil =>
    intro s _
    exact Nat.le_succ _
  | cons id ids ih =>
    intro s h
    show (runFilePaths (clientFilePath s id).2 ids).requestsSent ≤ s.requestsSent + 1
    by_cases he : (baseFilePath s id).isEmpty = true
    · have h2 : (clientFilePath s id).2 = requestIndex s := by
        simp [clientFilePath, he, h]
      rw [h2, runFilePaths_ready_fix ids (requestIndex s) rfl]
      exact Nat.le_refl _
    · have h2 : (clientFilePath s id).2 = s := by
        simp [clientFilePath, he]
      rw [h2]
      exact ih s h

/-- C9: on a fresh client, any burst of `filePath` calls before an index
response sends at most one fetch request (the latch is set by the first
request and, once set, every later call leaves the state untouched), and each
call returns the currently cached value while never modifying the cache. -/
theorem filePath_single_request :
    (∀ ids, (runFilePaths initClient ids).requestsSent ≤ 1) ∧
    (∀ s : IconsClientState, ∀ id, (clientFilePath s id).1 = baseFilePath s id ∧
      (clientFilePath s id).2.iconsIndex = s.iconsIndex) ∧
    (∀ s : IconsClientState, ∀ id, s.ready = true → (clientFilePath s id).2 = s) ∧
    (∀ s index, (indexReceived s index).ready = s.ready) ∧
    ((runFilePaths initClient [7, 7, 7]).requestsSent = 1 ∧
      (clientFilePath
        (indexReceived (runFilePaths initClient [7, 7, 7]) ["a.png"]) 0).1 = "a.png") := by
  refine ⟨?_, ?_, ?_, ?_, by decide, by decide⟩
  · intro ids
    exact runFilePaths_request_bound ids initClient rfl
  · intro s id
    constructor
    · unfold clientFilePath
      by_cases hc : ((baseFilePath s id).isEmpty && !s.ready) = true
      · rw [if_pos hc]
      · rw [if_neg hc]
    · unfold clientFilePath
      by_cases hc : ((baseFilePath s id).isEmpty && !s.ready) = true
      · rw [if_pos hc]
        rfl
      · rw [if_neg hc]
  · intro s id h
    simp [clientFilePath, h]
  · intro s index
    rfl

theorem filePath_single_request_witness :
    (runFilePaths initClient [0, 1, 2]).requestsSent ≤ 1 ∧
    initClient.ready = false :=
  ⟨filePath_single_request.1 [0, 1, 2], rfl⟩
